import Mathlib

/-!
Shallow embedding of `src/deepqmc/jax/wf/paulinet/graph.py`: the sparse
graph-edge construction core (pruning kernel, capacity-adaptive builder,
spin-channel edge factory and the generic graph-update step).

Modelling conventions:
* a 3-D coordinate is a `Vec3` of rationals; the JAX float arithmetic is
  modelled exactly over `ℚ`.  The kernel's comparison
  `sqrt(((receiver - sender)**2).sum()) < cutoff` is expressed without the
  square root as `0 < cutoff ∧ distSq < cutoff ^ 2`, which is equivalent for
  the non-negative radicand.
* an array of shape `(batch..., N, 3)` is modelled with its batch dimensions
  flattened into one leading list, i.e. `List (List Vec3)` (the builder
  itself flattens the batch with `reshape(-1, *pos.shape[-2:])`).
* JAX gather with an out-of-range index clamps to the last position
  (`getPos`), and scatter (`.at[idx].set`) drops out-of-range updates, which
  is exactly `List.set`'s behaviour.
* a Python `assert` failure or a `ValueError` raised inside a call is
  modelled by the call returning `none`.
-/

/-- One 3-dimensional coordinate (the arrays' trailing dimension of size 3). -/
structure Vec3 where
  x : ℚ
  y : ℚ
  z : ℚ
deriving DecidableEq

/-- Squared Euclidean distance, `((receiver - sender) ** 2).sum()` in the source. -/
def distSq (sender receiver : Vec3) : ℚ :=
  (receiver.x - sender.x) ^ 2 + (receiver.y - sender.y) ^ 2 + (receiver.z - sender.z) ^ 2

/-- Indexing a position array as JAX does under `jit`: an out-of-range index is
clamped to the last valid position. -/
def getPos (l : List Vec3) (i : ℕ) : Vec3 :=
  l.getD (min i (l.length - 1)) ⟨0, 0, 0⟩

/-- Result of the pruning kernel: the namedtuple
`GraphEdges = namedtuple('GraphEdges', 'senders receivers data')`, where the
`data` dict is either `{'occupancy': n}` (modelled `some n`) or `{}`
(modelled `none`). -/
structure GraphEdges where
  senders : List ℤ
  receivers : List ℤ
  data : Option ℕ
deriving DecidableEq

/-- Source `all_graph_edges(pos1, pos2)`: the `(N_sender, N_receiver)` table
whose row `i` lists every receiver index `0, ..., N_receiver - 1`. -/
def all_graph_edges (pos1 pos2 : List Vec3) : List (List ℕ) :=
  pos1.map (fun _ => List.range pos2.length)

/-- Rows of `mask_self_edges`: row `i` of the table with every entry equal to
its row index replaced by the out-of-range value `n` (`n = idx.shape[0]`). -/
def maskRowsFrom (n : ℕ) : ℕ → List (List ℕ) → List (List ℕ)
  | _, [] => []
  | i, row :: rest => row.map (fun j => if j = i then n else j) :: maskRowsFrom n (i + 1) rest

/-- Source `mask_self_edges(idx)`: entries on the diagonal (receiver index
equal to the row index) are replaced by the out-of-range value
`idx.shape[0]`. -/
def mask_self_edges (idx : List (List ℕ)) : List (List ℕ) :=
  maskRowsFrom idx.length 0 idx

/-- Row-major flattening of the index table together with the broadcast sender
indices: row `i` with entry `j` becomes the candidate pair `(i, j)`, exactly
the result of flattening `sender_idx` and `idx` in the source. -/
def flatCandidatesFrom : ℕ → List (List ℕ) → List (ℕ × ℕ)
  | _, [] => []
  | i, row :: rest => row.map (fun j => (i, j)) ++ flatCandidatesFrom (i + 1) rest

/-- Flattened candidate `(sender, receiver)` pairs in enumeration order. -/
def flatCandidates (idx : List (List ℕ)) : List (ℕ × ℕ) :=
  flatCandidatesFrom 0 idx

/-- The kernel's keep mask `(distances < cutoff) & (receiver_idx < N_receiver)`
for one candidate pair; `sqrt d < cutoff` is written `0 < cutoff ∧ d < cutoff²`. -/
def keepEdge (pos_sender pos_receiver : List Vec3) (cutoff : ℚ) (c : ℕ × ℕ) : Bool :=
  decide (0 < cutoff ∧ distSq (getPos pos_sender c.1) (getPos pos_receiver c.2) < cutoff ^ 2
    ∧ c.2 < pos_receiver.length)

/-- Running inclusive prefix sum of a boolean mask (`jnp.cumsum(mask)`),
starting from accumulator `acc`. -/
def cumsumFrom (acc : ℕ) : List Bool → List ℕ
  | [] => []
  | b :: rest =>
    (acc + if b then 1 else 0) :: cumsumFrom (acc + if b then 1 else 0) rest

/-- Source `jnp.cumsum(mask)`. -/
def cumsum (mask : List Bool) : List ℕ :=
  cumsumFrom 0 mask

/-- Source `buf.at[index].set(values)` as a left fold of `List.set`; like the
XLA scatter, out-of-range target positions are dropped. -/
def scatterSet (buf : List ℤ) (writes : List (ℕ × ℤ)) : List ℤ :=
  writes.foldl (fun b w => b.set w.1 w.2) buf

/-- Source `prune_graph_edges`: flatten the candidate table, compute the keep
mask, assign dense output positions by prefix sum, scatter the kept index
pairs into sentinel-initialised buffers of size `occupancy_limit + 1`, drop
the final discard slot and add the caller's offsets. -/
def prune_graph_edges (pos_sender pos_receiver : List Vec3) (cutoff : ℚ)
    (idx : List (List ℕ)) (occupancy_limit : ℕ)
    (send_offset rec_offset send_mask_val rec_mask_val : ℤ) : GraphEdges :=
  let cand := flatCandidates idx
  let mask := cand.map (keepEdge pos_sender pos_receiver cutoff)
  let cums := cumsum mask
  let occupancy := cums.getLastD 0
  let index := ((mask.zip cums).map
    (fun p => if p.1 then p.2 - 1 else occupancy_limit))
  let sender_idx := ((scatterSet
      (List.replicate (occupancy_limit + 1) (send_mask_val - send_offset))
      (index.zip (cand.map (fun c => (c.1 : ℤ))))).take occupancy_limit).map
    (fun v => v + send_offset)
  let receiver_idx := ((scatterSet
      (List.replicate (occupancy_limit + 1) (rec_mask_val - rec_offset))
      (index.zip (cand.map (fun c => (c.2 : ℤ))))).take occupancy_limit).map
    (fun v => v + rec_offset)
  GraphEdges.mk sender_idx receiver_idx (some occupancy)

/-- Candidate index table used by `compute_graph_edges`: the full table,
diagonal-masked when `mask_self` is set. -/
def graphIdx (pos1 pos2 : List Vec3) (mask_self : Bool) : List (List ℕ) :=
  if mask_self then mask_self_edges (all_graph_edges pos1 pos2)
  else all_graph_edges pos1 pos2

/-- Source `compute_graph_edges`: build the candidate table (optionally
self-masked) and prune it. -/
def compute_graph_edges (pos1 pos2 : List Vec3) (cutoff : ℚ)
    (occupancy_limit : ℕ) (mask_self : Bool)
    (send_offset rec_offset send_mask_val rec_mask_val : ℤ) : GraphEdges :=
  prune_graph_edges pos1 pos2 cutoff (graphIdx pos1 pos2 mask_self) occupancy_limit
    send_offset rec_offset send_mask_val rec_mask_val

/-- Kept candidates of one kernel invocation, in enumeration order. -/
def keptEdges (pos1 pos2 : List Vec3) (cutoff : ℚ) (mask_self : Bool) : List (ℕ × ℕ) :=
  (flatCandidates (graphIdx pos1 pos2 mask_self)).filter (keepEdge pos1 pos2 cutoff)

/-- True occupancy (number of kept candidates) of one kernel invocation; the
kernel reports exactly this in its `data` field, independently of the
capacity. -/
def kernelOcc (pos1 pos2 : List Vec3) (cutoff : ℚ) (mask_self : Bool) : ℕ :=
  (keptEdges pos1 pos2 cutoff mask_self).length

/-- State of `GraphEdgesBuilder`: the configuration plus the mutable
`occupancy_limit`. -/
structure GraphEdgesBuilder where
  cutoff : ℚ
  occupancy_limit : ℕ
  mask_self : Bool
  send_mask_val : ℤ
  rec_mask_val : ℤ
deriving DecidableEq

/-- Source `GraphEdgesBuilder.__init__`, whose
`assert not mask_self or send_mask_val == rec_mask_val` is modelled by
returning `none` (an `AssertionError`). -/
def GraphEdgesBuilder.init (cutoff : ℚ) (occupancy_limit : ℕ) (mask_self : Bool)
    (send_mask_val rec_mask_val : ℤ) : Option GraphEdgesBuilder :=
  if mask_self = false ∨ send_mask_val = rec_mask_val then
    some ⟨cutoff, occupancy_limit, mask_self, send_mask_val, rec_mask_val⟩
  else none

/-- Vectorised kernel run over the flattened batch (`vmap(compute_graph_edges)`
applied to `_pos1`, `_pos2`), at a given occupancy limit. -/
def runKernel (cutoff : ℚ) (mask_self : Bool) (send_mask_val rec_mask_val : ℤ)
    (pos1 pos2 : List (List Vec3)) (send_offset rec_offset : ℤ)
    (occupancy_limit : ℕ) : List GraphEdges :=
  (pos1.zip pos2).map (fun q =>
    compute_graph_edges q.1 q.2 cutoff occupancy_limit mask_self
      send_offset rec_offset send_mask_val rec_mask_val)

/-- Source `del edges.data['occupancy']`: the data dict becomes empty. -/
def stripOcc (e : GraphEdges) : GraphEdges :=
  { e with data := none }

/-- Shape preconditions asserted by `GraphEdgesBuilder.__call__`: matching
batch prefixes and, for self-masking builders, equal particle counts.  (The
trailing-dimension-3 assertion is structural in this model: a position is a
`Vec3` by construction.) -/
def callGuard (b : GraphEdgesBuilder) (Ns Nr : ℕ) (pos1 pos2 : List (List Vec3)) : Prop :=
  pos1.length = pos2.length ∧ (b.mask_self = false ∨ Ns = Nr)

instance (b : GraphEdgesBuilder) (Ns Nr : ℕ) (pos1 pos2 : List (List Vec3)) :
    Decidable (callGuard b Ns Nr pos1 pos2) := by
  unfold callGuard; infer_instance

/-- Source `GraphEdgesBuilder.__call__` over the flattened batch.  `Ns` and
`Nr` are the particle counts `pos1.shape[-2]` and `pos2.shape[-2]`.  A failed
assertion returns `none`; the degenerate zero-particle case short-circuits to
sentinel-filled buffers; otherwise the kernel runs at the current limit, and
when the maximal observed occupancy exceeds the limit, the limit is raised to
it and the whole batch is recomputed.  (`jnp.max` of the empty occupancy
array — a nonempty particle set with an empty flattened batch — raises a
`ValueError`, modelled by `none`.) -/
def GraphEdgesBuilder.call (b : GraphEdgesBuilder) (Ns Nr : ℕ)
    (pos1 pos2 : List (List Vec3)) (send_offset rec_offset : ℤ) :
    Option (GraphEdgesBuilder × List GraphEdges) :=
  if callGuard b Ns Nr pos1 pos2 then
    if Ns = 0 ∨ Nr = 0 then
      some (b, pos1.map (fun _ => GraphEdges.mk
        (List.replicate b.occupancy_limit b.send_mask_val)
        (List.replicate b.occupancy_limit b.rec_mask_val) none))
    else if pos1.isEmpty then none
    else
      let edges := runKernel b.cutoff b.mask_self b.send_mask_val b.rec_mask_val
        pos1 pos2 send_offset rec_offset b.occupancy_limit
      let max_occupancy := (edges.map (fun e => e.data.getD 0)).foldl max 0
      if b.occupancy_limit < max_occupancy then
        some ({ b with occupancy_limit := max_occupancy },
          (runKernel b.cutoff b.mask_self b.send_mask_val b.rec_mask_val
            pos1 pos2 send_offset rec_offset max_occupancy).map stripOcc)
      else
        some (b, edges.map stripOcc)
  else none

/-- Maximum of the per-batch-element true occupancies, `jnp.max(occupancy)`. -/
def batchMaxOcc (cutoff : ℚ) (mask_self : Bool) (pos1 pos2 : List (List Vec3)) : ℕ :=
  ((pos1.zip pos2).map (fun q => kernelOcc q.1 q.2 cutoff mask_self)).foldl max 0

/-- Source `transpose_cat` inside `EdgeFactory.__call__`, specialised to a
pair of structurally identical edge-set batches: per batch element, the
sender sequences and the receiver sequences are concatenated along the edge
axis (the data dicts are empty at this point). -/
def transpose_cat (edges1 edges2 : List GraphEdges) : List GraphEdges :=
  List.zipWith (fun e1 e2 =>
    GraphEdges.mk (e1.senders ++ e2.senders) (e1.receivers ++ e2.receivers) none)
    edges1 edges2

/-- Source `build_same` inside `EdgeFactory.__call__`: two calls on the one
`'same'` builder — spin-up vs spin-up at offset 0, then spin-down vs
spin-down at send and receive offset `n_up` — concatenated with
`transpose_cat`. -/
def build_same (b : GraphEdgesBuilder) (n_up n_down : ℕ) (rs : List (List Vec3)) :
    Option (GraphEdgesBuilder × List GraphEdges) :=
  let rs_up := rs.map (fun r => r.take n_up)
  let rs_down := rs.map (fun r => r.drop n_up)
  match b.call n_up n_up rs_up rs_up 0 0 with
  | none => none
  | some (b1, e1) =>
    match b1.call n_down n_down rs_down rs_down (n_up : ℤ) (n_up : ℤ) with
    | none => none
    | some (b2, e2) => some (b2, transpose_cat e1 e2)

/-- Source `build_anti` inside `EdgeFactory.__call__`: two calls on the one
`'anti'` builder — spin-up vs spin-down with receiver offset `n_up`, then
spin-down vs spin-up with sender offset `n_up` — concatenated with
`transpose_cat`. -/
def build_anti (b : GraphEdgesBuilder) (n_up n_down : ℕ) (rs : List (List Vec3)) :
    Option (GraphEdgesBuilder × List GraphEdges) :=
  let rs_up := rs.map (fun r => r.take n_up)
  let rs_down := rs.map (fun r => r.drop n_up)
  match b.call n_up n_down rs_up rs_down 0 (n_up : ℤ) with
  | none => none
  | some (b1, e1) =>
    match b1.call n_down n_up rs_down rs_up (n_up : ℤ) 0 with
    | none => none
    | some (b2, e2) => some (b2, transpose_cat e1 e2)

/-- Graph namedtuple `Graph = namedtuple('Graph', 'nodes edges')`, generic in
the node and edge payloads as `GraphUpdate` itself is. -/
structure Graph (N E : Type) where
  nodes : N
  edges : E

/-- Source `GraphUpdate`: the returned update function optionally recomputes
the edges from nodes and edges, then, when a node update is supplied,
aggregates the (possibly updated) edges per node and recomputes the nodes. -/
def GraphUpdate {N E A : Type} (aggregate_edges_for_nodes_fn : N → E → A)
    (update_nodes_fn : Option (N → A → N)) (update_edges_fn : Option (N → E → E)) :
    Graph N E → Graph N E := fun graph =>
  let nodes := graph.nodes
  let edges := graph.edges
  let edges := match update_edges_fn with
    | some f => f nodes edges
    | none => edges
  let nodes := match update_nodes_fn with
    | some f => f nodes (aggregate_edges_for_nodes_fn nodes edges)
    | none => nodes
  Graph.mk nodes edges

/-! ### Elementary list lemmas used by the packing characterisation -/

theorem getD_mem {α : Type} (l : List α) (p : ℕ) (d : α) (h : p < l.length) :
    l.getD p d ∈ l := by
  induction l generalizing p with
  | nil => simp at h
  | cons a as ih =>
    cases p with
    | zero => simp [List.getD]
    | succ q =>
      have : q < as.length := by simpa using h
      simpa [List.getD] using Or.inr (by simpa [List.getD] using ih q this)

theorem getD_set_self (l : List ℤ) (i : ℕ) (v d : ℤ) (h : i < l.length) :
    (l.set i v).getD i d = v := by
  induction l generalizing i with
  | nil => simp at h
  | cons a as ih =>
    cases i with
    | zero => simp [List.getD]
    | succ j =>
      have : j < as.length := by simpa using h
      simpa [List.getD] using ih j this

theorem getD_set_ne (l : List ℤ) (i p : ℕ) (v d : ℤ) (h : i ≠ p) :
    (l.set i v).getD p d = l.getD p d := by
  induction l generalizing i p with
  | nil => simp
  | cons a as ih =>
    cases i with
    | zero =>
      cases p with
      | zero => exact absurd rfl h
      | succ q => simp [List.getD]
    | succ j =>
      cases p with
      | zero => simp [List.getD]
      | succ q =>
        have : j ≠ q := fun hh => h (by rw [hh])
        simpa [List.getD] using ih j q this

theorem getD_replicate (n p : ℕ) (v d : ℤ) (h : p < n) :
    (List.replicate n v).getD p d = v := by
  induction n generalizing p with
  | zero => omega
  | succ m ih =>
    cases p with
    | zero => simp [List.getD]
    | succ q =>
      have : q < m := by omega
      simpa [List.replicate, List.getD] using ih q this

theorem getD_take (l : List ℤ) (n p : ℕ) (d : ℤ) (h : p < n) :
    (l.take n).getD p d = l.getD p d := by
  induction l generalizing n p with
  | nil => simp
  | cons a as ih =>
    cases n with
    | zero => omega
    | succ m =>
      cases p with
      | zero => simp [List.getD]
      | succ q =>
        have : q < m := by omega
        simpa [List.getD] using ih m q this

theorem getD_map (f : ℤ → ℤ) (l : List ℤ) (p : ℕ) (d d' : ℤ) (h : p < l.length) :
    (l.map f).getD p d' = f (l.getD p d) := by
  induction l generalizing p with
  | nil => simp at h
  | cons a as ih =>
    cases p with
    | zero => simp [List.getD]
    | succ q =>
      have : q < as.length := by simpa using h
      simpa [List.getD] using ih q this

theorem count_map_keep (keep : ℕ × ℕ → Bool) (cand : List (ℕ × ℕ)) :
    (cand.map keep).count true = (cand.filter keep).length := by
  induction cand with
  | nil => simp
  | cons c cs ih =>
    by_cases h : keep c
    · simp [List.count_cons, List.filter_cons, h, ih]
    · simp [List.count_cons, List.filter_cons, h, ih]

theorem getLastD_cumsumFrom (m : List Bool) : ∀ acc : ℕ,
    (cumsumFrom acc m).getLastD acc = acc + m.count true := by
  induction m with
  | nil => intro acc; simp [cumsumFrom]
  | cons b rest ih =>
    intro acc
    by_cases h : b
    · simp only [cumsumFrom, h, if_true, List.getLastD_cons, ih, List.count_cons]
      simp [h]; omega
    · have hb : b = false := by simpa using h
      simp only [cumsumFrom, hb, if_false, List.getLastD_cons, ih, List.count_cons]
      simp

theorem scatterSet_length (ws : List (ℕ × ℤ)) : ∀ buf : List ℤ,
    (scatterSet buf ws).length = buf.length := by
  induction ws with
  | nil => intro buf; rfl
  | cons w ws ih =>
    intro buf
    show (scatterSet (buf.set w.1 w.2) ws).length = buf.length
    rw [ih, List.length_set]

theorem scatterSet_getD (ws : List (ℕ × ℤ)) : ∀ (buf : List ℤ) (p : ℕ) (d : ℤ),
    p < buf.length →
    (scatterSet buf ws).getD p d =
      ((ws.filter (fun w => decide (w.1 = p))).map Prod.snd).getLastD (buf.getD p d) := by
  induction ws with
  | nil => intro buf p d _; rfl
  | cons w ws ih =>
    intro buf p d hp
    show (scatterSet (buf.set w.1 w.2) ws).getD p d = _
    rw [ih (buf.set w.1 w.2) p d (by rw [List.length_set]; exact hp)]
    by_cases h : w.1 = p
    · subst h
      rw [getD_set_self buf w.1 w.2 d hp]
      rw [List.filter_cons_of_pos (by simp), List.map_cons, List.getLastD_cons]
    · rw [getD_set_ne buf w.1 p w.2 d h]
      rw [List.filter_cons_of_neg (by simp [h])]

/-! ### Characterisation of the dense-packing scatter -/

/-- The write list produced by the kernel for one output buffer: walking the
candidates with a running count `c` of kept candidates seen so far, a kept
candidate targets slot `c` and a rejected one targets the discard slot `L`. -/
def mkWrites (keep : ℕ × ℕ → Bool) (pay : ℕ × ℕ → ℤ) (L : ℕ) : ℕ → List (ℕ × ℕ) → List (ℕ × ℤ)
  | _, [] => []
  | c, a :: as =>
    (if keep a then (c, pay a) else (L, pay a)) :: mkWrites keep pay L (if keep a then c + 1 else c) as

theorem index_zip_eq_mkWrites (keep : ℕ × ℕ → Bool) (pay : ℕ × ℕ → ℤ) (L : ℕ)
    (cand : List (ℕ × ℕ)) : ∀ a : ℕ,
    (((cand.map keep).zip (cumsumFrom a (cand.map keep))).map
      (fun p => if p.1 then p.2 - 1 else L)).zip (cand.map pay) =
    mkWrites keep pay L a cand := by
  induction cand with
  | nil => intro a; rfl
  | cons c cs ih =>
    intro a
    by_cases h : keep c
    · simp only [List.map_cons, cumsumFrom, h, if_true, List.zip_cons_cons,
        mkWrites, ih (a + 1)]
      congr 2
    · have hb : keep c = false := by simpa using h
      simp only [List.map_cons, cumsumFrom, hb, if_false, List.zip_cons_cons,
        mkWrites, Bool.false_eq_true, Nat.add_zero, ih a]

theorem filter_mkWrites (keep : ℕ × ℕ → Bool) (pay : ℕ × ℕ → ℤ) (L : ℕ)
    (cand : List (ℕ × ℕ)) : ∀ c p : ℕ, p < L →
    ((mkWrites keep pay L c cand).filter (fun w => decide (w.1 = p))).map Prod.snd =
      (if c ≤ p ∧ p < c + (cand.filter keep).length
       then [pay ((cand.filter keep).getD (p - c) (0, 0))]
       else []) := by
  induction cand with
  | nil => intro c p _; simp [mkWrites]
  | cons a as ih =>
    intro c p hp
    by_cases h : keep a
    · simp only [mkWrites, h, if_true]
      by_cases hcp : c = p
      · subst hcp
        rw [List.filter_cons_of_pos (by simp), List.map_cons,
          ih (c + 1) c hp, List.filter_cons_of_pos h]
        have h1 : ¬ (c + 1 ≤ c) := by omega
        have h2 : c ≤ c ∧ c < c + (a :: as.filter keep).length := by
          constructor
          · omega
          · simp
        rw [if_neg (by omega), if_pos h2]
        simp
      · rw [List.filter_cons_of_neg (by simp [hcp]), ih (c + 1) p hp,
          List.filter_cons_of_pos h]
        by_cases hle : c + 1 ≤ p ∧ p < c + 1 + (as.filter keep).length
        · have h2 : c ≤ p ∧ p < c + (a :: as.filter keep).length := by
            constructor
            · omega
            · simp; omega
          rw [if_pos hle, if_pos h2]
          have hgt : 1 ≤ p - c := by omega
          have : p - c = (p - (c + 1)) + 1 := by omega
          rw [this]
          simp [List.getD]
        · rw [if_neg hle, if_neg (by simp at hle ⊢; intro hc; omega)]
    · have hb : keep a = false := by simpa using h
      simp only [mkWrites, hb, if_false, Bool.false_eq_true]
      rw [List.filter_cons_of_neg (by simp; omega), ih c p hp,
        List.filter_cons_of_neg (by simp [hb])]

theorem pack_length (L : ℕ) (base off : ℤ)
    (ws : List (ℕ × ℤ)) :
    (((scatterSet (List.replicate (L + 1) base) ws).take L).map (fun v => v + off)).length
      = L := by
  rw [List.length_map, List.length_take, scatterSet_length, List.length_replicate]
  omega

theorem pack_getD (keep : ℕ × ℕ → Bool) (pay : ℕ × ℕ → ℤ) (L : ℕ) (base off : ℤ)
    (cand : List (ℕ × ℕ)) (p : ℕ) (hp : p < L) :
    (((scatterSet (List.replicate (L + 1) base) (mkWrites keep pay L 0 cand)).take L).map
      (fun v => v + off)).getD p 0 =
    (if p < (cand.filter keep).length then pay ((cand.filter keep).getD p (0, 0)) else base)
      + off := by
  have hsc : (scatterSet (List.replicate (L + 1) base) (mkWrites keep pay L 0 cand)).length
      = L + 1 := by
    rw [scatterSet_length, List.length_replicate]
  have htk : ((scatterSet (List.replicate (L + 1) base) (mkWrites keep pay L 0 cand)).take
      L).length = L := by
    rw [List.length_take, hsc]; omega
  rw [getD_map _ _ _ 0 0 (by rw [htk]; exact hp)]
  rw [getD_take _ _ _ _ hp]
  rw [scatterSet_getD _ _ _ _ (by rw [List.length_replicate]; omega)]
  rw [getD_replicate _ _ _ _ (by omega)]
  rw [filter_mkWrites keep pay L cand 0 p hp]
  by_cases h : p < (cand.filter keep).length
  · rw [if_pos ⟨Nat.zero_le p, by omega⟩, if_pos h]
    simp
  · rw [if_neg (by omega), if_neg h]
    simp

/-! ### Pointwise characterisation of the pruning kernel -/

theorem prune_senders_length (ps pr : List Vec3) (cut : ℚ) (idx : List (List ℕ)) (L : ℕ)
    (so ro smv rmv : ℤ) :
    (prune_graph_edges ps pr cut idx L so ro smv rmv).senders.length = L := by
  unfold prune_graph_edges
  exact pack_length L (smv - so) so _

theorem prune_receivers_length (ps pr : List Vec3) (cut : ℚ) (idx : List (List ℕ)) (L : ℕ)
    (so ro smv rmv : ℤ) :
    (prune_graph_edges ps pr cut idx L so ro smv rmv).receivers.length = L := by
  unfold prune_graph_edges
  exact pack_length L (rmv - ro) ro _

theorem prune_data (ps pr : List Vec3) (cut : ℚ) (idx : List (List ℕ)) (L : ℕ)
    (so ro smv rmv : ℤ) :
    (prune_graph_edges ps pr cut idx L so ro smv rmv).data =
      some ((flatCandidates idx).filter (keepEdge ps pr cut)).length := by
  unfold prune_graph_edges
  simp only [cumsum]
  rw [getLastD_cumsumFrom, count_map_keep, Nat.zero_add]

theorem prune_senders_getD (ps pr : List Vec3) (cut : ℚ) (idx : List (List ℕ)) (L : ℕ)
    (so ro smv rmv : ℤ) (p : ℕ) (hp : p < L) :
    (prune_graph_edges ps pr cut idx L so ro smv rmv).senders.getD p 0 =
      if p < ((flatCandidates idx).filter (keepEdge ps pr cut)).length
      then ((((flatCandidates idx).filter (keepEdge ps pr cut)).getD p (0, 0)).1 : ℤ) + so
      else smv := by
  unfold prune_graph_edges
  simp only [cumsum]
  rw [index_zip_eq_mkWrites (keepEdge ps pr cut) (fun c => (c.1 : ℤ)) L _ 0]
  rw [pack_getD (keepEdge ps pr cut) (fun c => (c.1 : ℤ)) L (smv - so) so _ p hp]
  by_cases h : p < ((flatCandidates idx).filter (keepEdge ps pr cut)).length
  · rw [if_pos h, if_pos h]
  · rw [if_neg h, if_neg h]
    omega

theorem prune_receivers_getD (ps pr : List Vec3) (cut : ℚ) (idx : List (List ℕ)) (L : ℕ)
    (so ro smv rmv : ℤ) (p : ℕ) (hp : p < L) :
    (prune_graph_edges ps pr cut idx L so ro smv rmv).receivers.getD p 0 =
      if p < ((flatCandidates idx).filter (keepEdge ps pr cut)).length
      then ((((flatCandidates idx).filter (keepEdge ps pr cut)).getD p (0, 0)).2 : ℤ) + ro
      else rmv := by
  unfold prune_graph_edges
  simp only [cumsum]
  rw [index_zip_eq_mkWrites (keepEdge ps pr cut) (fun c => (c.2 : ℤ)) L _ 0]
  rw [pack_getD (keepEdge ps pr cut) (fun c => (c.2 : ℤ)) L (rmv - ro) ro _ p hp]
  by_cases h : p < ((flatCandidates idx).filter (keepEdge ps pr cut)).length
  · rw [if_pos h, if_pos h]
  · rw [if_neg h, if_neg h]
    omega

/-! ### Candidate-table membership lemmas -/

theorem mem_flatCandidatesFrom (idx : List (List ℕ)) : ∀ (i : ℕ) (c : ℕ × ℕ),
    c ∈ flatCandidatesFrom i idx ↔
      ∃ k, k < idx.length ∧ c.1 = i + k ∧ c.2 ∈ idx.getD k [] := by
  induction idx with
  | nil => intro i c; simp [flatCandidatesFrom]
  | cons row rest ih =>
    intro i c
    simp only [flatCandidatesFrom, List.mem_append, List.mem_map, ih (i + 1)]
    constructor
    · rintro (⟨j, hj, rfl⟩ | ⟨k, hk, h1, h2⟩)
      · exact ⟨0, by simp, by simp, by simpa [List.getD] using hj⟩
      · exact ⟨k + 1, by simp; omega, by omega, by simpa [List.getD] using h2⟩
    · rintro ⟨k, hk, h1, h2⟩
      cases k with
      | zero =>
        left
        refine ⟨c.2, by simpa [List.getD] using h2, ?_⟩
        have h0 : c.1 = i := by omega
        rw [← h0]
      | succ m =>
        right
        refine ⟨m, by simp at hk; omega, by omega, by simpa [List.getD] using h2⟩

theorem mem_flatCandidates (idx : List (List ℕ)) (c : ℕ × ℕ) :
    c ∈ flatCandidates idx ↔ c.1 < idx.length ∧ c.2 ∈ idx.getD c.1 [] := by
  rw [flatCandidates, mem_flatCandidatesFrom]
  constructor
  · rintro ⟨k, hk, h1, h2⟩
    have : c.1 = k := by omega
    subst this
    exact ⟨hk, h2⟩
  · rintro ⟨h1, h2⟩
    exact ⟨c.1, h1, by omega, h2⟩

theorem length_maskRowsFrom (idx : List (List ℕ)) : ∀ (n i : ℕ),
    (maskRowsFrom n i idx).length = idx.length := by
  induction idx with
  | nil => intro n i; rfl
  | cons row rest ih => intro n i; simp [maskRowsFrom, ih]

theorem getD_maskRowsFrom (idx : List (List ℕ)) : ∀ (n i k : ℕ), k < idx.length →
    (maskRowsFrom n i idx).getD k [] =
      (idx.getD k []).map (fun j => if j = i + k then n else j) := by
  induction idx with
  | nil => intro n i k hk; simp at hk
  | cons row rest ih =>
    intro n i k hk
    cases k with
    | zero => simp [maskRowsFrom, List.getD]
    | succ m =>
      have hm : m < rest.length := by simpa using hk
      have := ih n (i + 1) m hm
      simp only [maskRowsFrom, List.getD_cons_succ, this]
      congr 1
      funext j
      congr 2
      omega

theorem length_all_graph_edges (p1 p2 : List Vec3) :
    (all_graph_edges p1 p2).length = p1.length := by
  simp [all_graph_edges]

theorem getD_all_graph_edges (p1 p2 : List Vec3) : ∀ k : ℕ, k < p1.length →
    (all_graph_edges p1 p2).getD k [] = List.range p2.length := by
  unfold all_graph_edges
  induction p1 with
  | nil => intro k hk; simp at hk
  | cons a as ih =>
    intro k hk
    cases k with
    | zero => simp [List.getD]
    | succ m => simpa [List.getD] using ih m (by simpa using hk)

theorem length_graphIdx (p1 p2 : List Vec3) (ms : Bool) :
    (graphIdx p1 p2 ms).length = p1.length := by
  cases ms with
  | false => simp [graphIdx, length_all_graph_edges]
  | true => simp [graphIdx, mask_self_edges, length_maskRowsFrom, length_all_graph_edges]

theorem graphIdx_sender_lt (p1 p2 : List Vec3) (ms : Bool) (c : ℕ × ℕ)
    (hc : c ∈ flatCandidates (graphIdx p1 p2 ms)) : c.1 < p1.length := by
  have := (mem_flatCandidates _ c).1 hc
  rw [length_graphIdx] at this
  exact this.1

theorem graphIdx_no_self (p1 p2 : List Vec3) (c : ℕ × ℕ)
    (hc : c ∈ flatCandidates (graphIdx p1 p2 true)) : c.1 ≠ c.2 := by
  have hmem := (mem_flatCandidates _ c).1 hc
  have h1 : c.1 < p1.length := by
    have := hmem.1
    rwa [length_graphIdx] at this
  have h2 := hmem.2
  rw [show graphIdx p1 p2 true = mask_self_edges (all_graph_edges p1 p2) from rfl,
    mask_self_edges, getD_maskRowsFrom _ _ _ _ (by
      rw [length_all_graph_edges]
      exact h1),
    getD_all_graph_edges p1 p2 c.1 h1, length_all_graph_edges] at h2
  simp only [List.mem_map, List.mem_range] at h2
  obtain ⟨j, _, hj⟩ := h2
  by_cases hjc : j = 0 + c.1
  · rw [if_pos hjc] at hj
    omega
  · rw [if_neg hjc] at hj
    omega

theorem keepEdge_iff (ps pr : List Vec3) (cut : ℚ) (c : ℕ × ℕ) :
    keepEdge ps pr cut c = true ↔
      0 < cut ∧ distSq (getPos ps c.1) (getPos pr c.2) < cut ^ 2 ∧ c.2 < pr.length := by
  simp [keepEdge]

theorem getPos_lt (l : List Vec3) (i : ℕ) (h : i < l.length) :
    getPos l i = l.getD i ⟨0, 0, 0⟩ := by
  unfold getPos
  congr 1
  omega

theorem compute_data (p1 p2 : List Vec3) (cut : ℚ) (L : ℕ) (ms : Bool) (so ro smv rmv : ℤ) :
    (compute_graph_edges p1 p2 cut L ms so ro smv rmv).data = some (kernelOcc p1 p2 cut ms) := by
  unfold compute_graph_edges kernelOcc keptEdges
  exact prune_data p1 p2 cut (graphIdx p1 p2 ms) L so ro smv rmv

theorem compute_senders_length (p1 p2 : List Vec3) (cut : ℚ) (L : ℕ) (ms : Bool)
    (so ro smv rmv : ℤ) :
    (compute_graph_edges p1 p2 cut L ms so ro smv rmv).senders.length = L :=
  prune_senders_length p1 p2 cut (graphIdx p1 p2 ms) L so ro smv rmv

theorem compute_receivers_length (p1 p2 : List Vec3) (cut : ℚ) (L : ℕ) (ms : Bool)
    (so ro smv rmv : ℤ) :
    (compute_graph_edges p1 p2 cut L ms so ro smv rmv).receivers.length = L :=
  prune_receivers_length p1 p2 cut (graphIdx p1 p2 ms) L so ro smv rmv

theorem compute_slots (p1 p2 : List Vec3) (cut : ℚ) (L : ℕ) (ms : Bool) (so ro smv rmv : ℤ)
    (p : ℕ) (hp : p < L) :
    ((compute_graph_edges p1 p2 cut L ms so ro smv rmv).senders.getD p 0 = smv ∧
     (compute_graph_edges p1 p2 cut L ms so ro smv rmv).receivers.getD p 0 = rmv) ∨
    ∃ s r : ℕ, s < p1.length ∧ r < p2.length ∧
      (compute_graph_edges p1 p2 cut L ms so ro smv rmv).senders.getD p 0 = (s : ℤ) + so ∧
      (compute_graph_edges p1 p2 cut L ms so ro smv rmv).receivers.getD p 0 = (r : ℤ) + ro ∧
      0 < cut ∧ distSq (p1.getD s ⟨0, 0, 0⟩) (p2.getD r ⟨0, 0, 0⟩) < cut ^ 2 ∧
      (ms = true → s ≠ r) := by
  unfold compute_graph_edges
  rw [prune_senders_getD _ _ _ _ _ _ _ _ _ p hp, prune_receivers_getD _ _ _ _ _ _ _ _ _ p hp]
  by_cases h : p < ((flatCandidates (graphIdx p1 p2 ms)).filter (keepEdge p1 p2 cut)).length
  · right
    have hmem : ((flatCandidates (graphIdx p1 p2 ms)).filter (keepEdge p1 p2 cut)).getD p (0, 0)
        ∈ (flatCandidates (graphIdx p1 p2 ms)).filter (keepEdge p1 p2 cut) :=
      getD_mem _ p (0, 0) h
    have hfil := List.mem_filter.1 hmem
    have hkeep := (keepEdge_iff p1 p2 cut _).1 hfil.2
    have hs := graphIdx_sender_lt p1 p2 ms _ hfil.1
    have hr := hkeep.2.2
    refine ⟨_, _, hs, hr, ?_, ?_, hkeep.1, ?_, ?_⟩
    · rw [if_pos h]
    · rw [if_pos h]
    · have hd := hkeep.2.1
      rwa [getPos_lt p1 _ hs, getPos_lt p2 _ hr] at hd
    · intro hms
      subst hms
      exact graphIdx_no_self p1 p2 _ hfil.1
  · left
    rw [if_neg h, if_neg h]
    exact ⟨rfl, rfl⟩

/-! ### Builder-call branch lemmas -/

theorem runKernel_max (cut : ℚ) (ms : Bool) (smv rmv : ℤ) (pos1 pos2 : List (List Vec3))
    (so ro : ℤ) (L : ℕ) :
    ((runKernel cut ms smv rmv pos1 pos2 so ro L).map (fun e => e.data.getD 0)).foldl max 0 =
      batchMaxOcc cut ms pos1 pos2 := by
  unfold runKernel batchMaxOcc
  rw [List.map_map]
  have hfun : ((fun e => e.data.getD 0) ∘
      fun q : List Vec3 × List Vec3 => compute_graph_edges q.1 q.2 cut L ms so ro smv rmv)
      = fun q : List Vec3 × List Vec3 => kernelOcc q.1 q.2 cut ms := by
    funext q
    simp [Function.comp, compute_data]
  rw [hfun]

theorem call_pos (b : GraphEdgesBuilder) (Ns Nr : ℕ) (pos1 pos2 : List (List Vec3))
    (so ro : ℤ) (hg : callGuard b Ns Nr pos1 pos2) (hNs : Ns ≠ 0) (hNr : Nr ≠ 0)
    (hne : pos1 ≠ []) :
    b.call Ns Nr pos1 pos2 so ro =
      if b.occupancy_limit < batchMaxOcc b.cutoff b.mask_self pos1 pos2 then
        some ({ b with occupancy_limit := batchMaxOcc b.cutoff b.mask_self pos1 pos2 },
          (runKernel b.cutoff b.mask_self b.send_mask_val b.rec_mask_val pos1 pos2 so ro
            (batchMaxOcc b.cutoff b.mask_self pos1 pos2)).map stripOcc)
      else
        some (b, (runKernel b.cutoff b.mask_self b.send_mask_val b.rec_mask_val pos1 pos2 so ro
          b.occupancy_limit).map stripOcc) := by
  unfold GraphEdgesBuilder.call
  rw [if_pos hg, if_neg (by simp [hNs, hNr]), if_neg (by simp [hne])]
  simp only [runKernel_max]

theorem call_degenerate (b : GraphEdgesBuilder) (Ns Nr : ℕ) (pos1 pos2 : List (List Vec3))
    (so ro : ℤ) (hg : callGuard b Ns Nr pos1 pos2) (h0 : Ns = 0 ∨ Nr = 0) :
    b.call Ns Nr pos1 pos2 so ro = some (b, pos1.map (fun _ => GraphEdges.mk
      (List.replicate b.occupancy_limit b.send_mask_val)
      (List.replicate b.occupancy_limit b.rec_mask_val) none)) := by
  unfold GraphEdgesBuilder.call
  rw [if_pos hg, if_pos h0]

theorem call_empty (b : GraphEdgesBuilder) (Ns Nr : ℕ) (pos2 : List (List Vec3))
    (so ro : ℤ) (hg : callGuard b Ns Nr [] pos2) (hNs : Ns ≠ 0) (hNr : Nr ≠ 0) :
    b.call Ns Nr [] pos2 so ro = none := by
  unfold GraphEdgesBuilder.call
  rw [if_pos hg, if_neg (by simp [hNs, hNr]), if_pos (by simp)]

theorem call_guard_fail (b : GraphEdgesBuilder) (Ns Nr : ℕ) (pos1 pos2 : List (List Vec3))
    (so ro : ℤ) (hg : ¬ callGuard b Ns Nr pos1 pos2) :
    b.call Ns Nr pos1 pos2 so ro = none := by
  unfold GraphEdgesBuilder.call
  rw [if_neg hg]

theorem call_none_iff (b : GraphEdgesBuilder) (Ns Nr : ℕ) (pos1 pos2 : List (List Vec3))
    (so ro : ℤ) :
    b.call Ns Nr pos1 pos2 so ro = none ↔
      ¬ callGuard b Ns Nr pos1 pos2 ∨ (Ns ≠ 0 ∧ Nr ≠ 0 ∧ pos1 = []) := by
  by_cases hg : callGuard b Ns Nr pos1 pos2
  · by_cases h0 : Ns = 0 ∨ Nr = 0
    · rw [call_degenerate b Ns Nr pos1 pos2 so ro hg h0]
      simp only [reduceCtorEq, false_iff]
      push_neg
      exact ⟨hg, fun hNs hNr => absurd h0 (by simp [hNs, hNr])⟩
    · push_neg at h0
      by_cases hne : pos1 = []
      · subst hne
        rw [call_empty b Ns Nr pos2 so ro hg h0.1 h0.2]
        simp [h0.1, h0.2]
      · rw [call_pos b Ns Nr pos1 pos2 so ro hg h0.1 h0.2 hne]
        constructor
        · intro hcontra
          by_cases hov : b.occupancy_limit < batchMaxOcc b.cutoff b.mask_self pos1 pos2
          · rw [if_pos hov] at hcontra; cases hcontra
          · rw [if_neg hov] at hcontra; cases hcontra
        · rintro (hng | ⟨_, _, hnil⟩)
          · exact absurd hg hng
          · exact absurd hnil hne
  · rw [call_guard_fail b Ns Nr pos1 pos2 so ro hg]
    simp [hg]

theorem call_monotone (b : GraphEdgesBuilder) (Ns Nr : ℕ) (pos1 pos2 : List (List Vec3))
    (so ro : ℤ) (b' : GraphEdgesBuilder) (es : List GraphEdges)
    (h : b.call Ns Nr pos1 pos2 so ro = some (b', es)) :
    b.occupancy_limit ≤ b'.occupancy_limit ∧ b'.cutoff = b.cutoff ∧
    b'.mask_self = b.mask_self ∧ b'.send_mask_val = b.send_mask_val ∧
    b'.rec_mask_val = b.rec_mask_val ∧
    (b' = b ∨ (b.occupancy_limit < batchMaxOcc b.cutoff b.mask_self pos1 pos2 ∧
      b'.occupancy_limit = batchMaxOcc b.cutoff b.mask_self pos1 pos2)) := by
  by_cases hg : callGuard b Ns Nr pos1 pos2
  · by_cases h0 : Ns = 0 ∨ Nr = 0
    · rw [call_degenerate b Ns Nr pos1 pos2 so ro hg h0] at h
      simp only [Option.some.injEq, Prod.mk.injEq] at h
      rw [← h.1]
      exact ⟨le_refl _, rfl, rfl, rfl, rfl, Or.inl rfl⟩
    · push_neg at h0
      by_cases hne : pos1 = []
      · subst hne
        rw [call_empty b Ns Nr pos2 so ro hg h0.1 h0.2] at h
        cases h
      · rw [call_pos b Ns Nr pos1 pos2 so ro hg h0.1 h0.2 hne] at h
        by_cases hov : b.occupancy_limit < batchMaxOcc b.cutoff b.mask_self pos1 pos2
        · rw [if_pos hov] at h
          simp only [Option.some.injEq, Prod.mk.injEq] at h
          rw [← h.1]
          exact ⟨le_of_lt hov, rfl, rfl, rfl, rfl, Or.inr ⟨hov, rfl⟩⟩
        · rw [if_neg hov] at h
          simp only [Option.some.injEq, Prod.mk.injEq] at h
          rw [← h.1]
          exact ⟨le_refl _, rfl, rfl, rfl, rfl, Or.inl rfl⟩
  · rw [call_guard_fail b Ns Nr pos1 pos2 so ro hg] at h
    cases h

theorem call_idempotent (b : GraphEdgesBuilder) (Ns Nr : ℕ) (pos1 pos2 : List (List Vec3))
    (so ro : ℤ) (b' : GraphEdgesBuilder) (es : List GraphEdges)
    (h : b.call Ns Nr pos1 pos2 so ro = some (b', es)) :
    b'.call Ns Nr pos1 pos2 so ro = some (b', es) := by
  by_cases hg : callGuard b Ns Nr pos1 pos2
  · by_cases h0 : Ns = 0 ∨ Nr = 0
    · rw [call_degenerate b Ns Nr pos1 pos2 so ro hg h0] at h
      simp only [Option.some.injEq, Prod.mk.injEq] at h
      rw [← h.1, ← h.2]
      exact call_degenerate b Ns Nr pos1 pos2 so ro hg h0
    · push_neg at h0
      by_cases hne : pos1 = []
      · subst hne
        rw [call_empty b Ns Nr pos2 so ro hg h0.1 h0.2] at h
        cases h
      · rw [call_pos b Ns Nr pos1 pos2 so ro hg h0.1 h0.2 hne] at h
        by_cases hov : b.occupancy_limit < batchMaxOcc b.cutoff b.mask_self pos1 pos2
        · rw [if_pos hov] at h
          simp only [Option.some.injEq, Prod.mk.injEq] at h
          obtain ⟨hb, hes⟩ := h
          have hg' : callGuard b' Ns Nr pos1 pos2 := by
            rw [← hb]
            exact hg
          rw [call_pos b' Ns Nr pos1 pos2 so ro hg' h0.1 h0.2 hne]
          have hcut : b'.cutoff = b.cutoff := by rw [← hb]
          have hms : b'.mask_self = b.mask_self := by rw [← hb]
          have hsm : b'.send_mask_val = b.send_mask_val := by rw [← hb]
          have hrm : b'.rec_mask_val = b.rec_mask_val := by rw [← hb]
          have hlim : b'.occupancy_limit = batchMaxOcc b.cutoff b.mask_self pos1 pos2 := by
            rw [← hb]
          rw [hcut, hms, hsm, hrm, hlim, if_neg (lt_irrefl _), ← hes]
        · rw [if_neg hov] at h
          simp only [Option.some.injEq, Prod.mk.injEq] at h
          rw [← h.1, ← h.2]
          rw [call_pos b Ns Nr pos1 pos2 so ro hg h0.1 h0.2 hne, if_neg hov]
  · rw [call_guard_fail b Ns Nr pos1 pos2 so ro hg] at h
    cases h

theorem runKernel_mem_spec (cut : ℚ) (ms : Bool) (smv rmv : ℤ) (pos1 pos2 : List (List Vec3))
    (so ro : ℤ) (L : ℕ) (e : GraphEdges)
    (he : e ∈ (runKernel cut ms smv rmv pos1 pos2 so ro L).map stripOcc) :
    e.senders.length = L ∧ e.receivers.length = L ∧ e.data = none ∧
    ∀ p, p < L →
      (e.senders.getD p 0 = smv ∧ e.receivers.getD p 0 = rmv) ∨
      ∃ q ∈ pos1.zip pos2, ∃ s r : ℕ, s < q.1.length ∧ r < q.2.length ∧
        e.senders.getD p 0 = (s : ℤ) + so ∧ e.receivers.getD p 0 = (r : ℤ) + ro ∧
        0 < cut ∧ distSq (q.1.getD s ⟨0, 0, 0⟩) (q.2.getD r ⟨0, 0, 0⟩) < cut ^ 2 ∧
        (ms = true → s ≠ r) := by
  simp only [runKernel, List.map_map, List.mem_map, Function.comp] at he
  obtain ⟨q, hq, rfl⟩ := he
  refine ⟨compute_senders_length q.1 q.2 cut L ms so ro smv rmv,
    compute_receivers_length q.1 q.2 cut L ms so ro smv rmv, rfl, ?_⟩
  intro p hp
  rcases compute_slots q.1 q.2 cut L ms so ro smv rmv p hp with hl | ⟨s, r, hs, hr, h1, h2, h3, h4, h5⟩
  · exact Or.inl hl
  · exact Or.inr ⟨q, hq, s, r, hs, hr, h1, h2, h3, h4, h5⟩

theorem call_mem_spec (b : GraphEdgesBuilder) (Ns Nr : ℕ) (pos1 pos2 : List (List Vec3))
    (so ro : ℤ) (b' : GraphEdgesBuilder) (es : List GraphEdges)
    (h : b.call Ns Nr pos1 pos2 so ro = some (b', es)) :
    es.length = pos1.length ∧
    ∀ e ∈ es, e.senders.length = b'.occupancy_limit ∧
      e.receivers.length = b'.occupancy_limit ∧ e.data = none ∧
      ∀ p, p < b'.occupancy_limit →
        (e.senders.getD p 0 = b.send_mask_val ∧ e.receivers.getD p 0 = b.rec_mask_val) ∨
        ∃ q ∈ pos1.zip pos2, ∃ s r : ℕ, s < q.1.length ∧ r < q.2.length ∧
          e.senders.getD p 0 = (s : ℤ) + so ∧ e.receivers.getD p 0 = (r : ℤ) + ro ∧
          0 < b.cutoff ∧ distSq (q.1.getD s ⟨0, 0, 0⟩) (q.2.getD r ⟨0, 0, 0⟩) < b.cutoff ^ 2 ∧
          (b.mask_self = true → s ≠ r) := by
  by_cases hg : callGuard b Ns Nr pos1 pos2
  · by_cases h0 : Ns = 0 ∨ Nr = 0
    · rw [call_degenerate b Ns Nr pos1 pos2 so ro hg h0] at h
      simp only [Option.some.injEq, Prod.mk.injEq] at h
      obtain ⟨hb, hes⟩ := h
      constructor
      · rw [← hes, List.length_map]
      · intro e he
        rw [← hes] at he
        simp only [List.mem_map] at he
        obtain ⟨q, _, rfl⟩ := he
        rw [← hb]
        refine ⟨List.length_replicate _ _, List.length_replicate _ _, rfl, ?_⟩
        intro p hp
        exact Or.inl ⟨getD_replicate _ _ _ _ hp, getD_replicate _ _ _ _ hp⟩
    · push_neg at h0
      by_cases hne : pos1 = []
      · subst hne
        rw [call_empty b Ns Nr pos2 so ro hg h0.1 h0.2] at h
        cases h
      · rw [call_pos b Ns Nr pos1 pos2 so ro hg h0.1 h0.2 hne] at h
        have hzip : (pos1.zip pos2).length = pos1.length := by
          rw [List.length_zip, hg.1, Nat.min_self]
        by_cases hov : b.occupancy_limit < batchMaxOcc b.cutoff b.mask_self pos1 pos2
        · rw [if_pos hov] at h
          simp only [Option.some.injEq, Prod.mk.injEq] at h
          obtain ⟨hb, hes⟩ := h
          have hlim : b'.occupancy_limit = batchMaxOcc b.cutoff b.mask_self pos1 pos2 := by
            rw [← hb]
          constructor
          · rw [← hes, List.length_map]
            unfold runKernel
            rw [List.length_map, hzip]
          · intro e he
            rw [← hes] at he
            rw [hlim]
            exact runKernel_mem_spec b.cutoff b.mask_self b.send_mask_val b.rec_mask_val
              pos1 pos2 so ro _ e he
        · rw [if_neg hov] at h
          simp only [Option.some.injEq, Prod.mk.injEq] at h
          obtain ⟨hb, hes⟩ := h
          have hlim : b'.occupancy_limit = b.occupancy_limit := by rw [← hb]
          constructor
          · rw [← hes, List.length_map]
            unfold runKernel
            rw [List.length_map, hzip]
          · intro e he
            rw [← hes] at he
            rw [hlim]
            exact runKernel_mem_spec b.cutoff b.mask_self b.send_mask_val b.rec_mask_val
              pos1 pos2 so ro _ e he
  · rw [call_guard_fail b Ns Nr pos1 pos2 so ro hg] at h
    cases h

/-! ### Claim theorems -/

section
attribute [local semireducible] Rat.add Rat.sub Rat.mul Rat.inv

/-- C9: the function returned by `GraphUpdate` is a pure composition: on a
graph it returns `Graph(nodes', edges')` where `edges'` is
`update_edges_fn(nodes, edges)` when an edge update is supplied and `edges`
otherwise, and `nodes'` is
`update_nodes_fn(nodes, aggregate_edges_for_nodes_fn(nodes, edges'))` when a
node update is supplied and `nodes` otherwise; the input graph is untouched
(the model is a pure function). -/
theorem spec_graph_update_pure {N E A : Type} (agg : N → E → A)
    (un : Option (N → A → N)) (ue : Option (N → E → E)) (g : Graph N E) :
    GraphUpdate agg un ue g =
      Graph.mk
        (match un with
         | some f => f g.nodes (agg g.nodes (match ue with
             | some fe => fe g.nodes g.edges
             | none => g.edges))
         | none => g.nodes)
        (match ue with
         | some fe => fe g.nodes g.edges
         | none => g.edges) := by
  cases un <;> cases ue <;> rfl

/-- C7: a build call on a sender or receiver set with zero particles
short-circuits, for any offsets, to an edge set made entirely of the
configured mask-value sentinels at the full current occupancy limit, one
sentinel-filled entry per batch element (the batch prefix is preserved), and
leaves the builder untouched. -/
theorem spec_degenerate_sentinels (b : GraphEdgesBuilder) (Ns Nr : ℕ)
    (pos1 pos2 : List (List Vec3)) (send_offset rec_offset : ℤ)
    (hg : callGuard b Ns Nr pos1 pos2) (h0 : Ns = 0 ∨ Nr = 0) :
    b.call Ns Nr pos1 pos2 send_offset rec_offset = some (b, pos1.map (fun _ =>
      GraphEdges.mk (List.replicate b.occupancy_limit b.send_mask_val)
        (List.replicate b.occupancy_limit b.rec_mask_val) none)) :=
  call_degenerate b Ns Nr pos1 pos2 send_offset rec_offset hg h0

/-- C7 witness: a concrete degenerate call (no senders, one receiver,
nonzero offsets) returns the sentinel-filled edge set at capacity 2. -/
theorem spec_degenerate_sentinels_witness :
    (⟨10, 2, false, 5, 7⟩ : GraphEdgesBuilder).call 0 1 [[]] [[⟨0, 0, 0⟩]] 3 4 =
      some (⟨10, 2, false, 5, 7⟩, [GraphEdges.mk [5, 5] [7, 7] none]) :=
  spec_degenerate_sentinels ⟨10, 2, false, 5, 7⟩ 0 1 [[]] [[⟨0, 0, 0⟩]] 3 4
    (by constructor <;> simp) (Or.inl rfl)

/-- C5: for a successful build call the occupancy limit never decreases, and
it changes only by growing to the maximal observed occupancy when that
exceeds the current limit; moreover `GraphEdgesBuilder.init` initialises the
limit from the configured value. -/
theorem spec_occupancy_monotone (b : GraphEdgesBuilder) (Ns Nr : ℕ)
    (pos1 pos2 : List (List Vec3)) (so ro : ℤ) (b' : GraphEdgesBuilder)
    (es : List GraphEdges) (h : b.call Ns Nr pos1 pos2 so ro = some (b', es)) :
    b.occupancy_limit ≤ b'.occupancy_limit ∧
    (b'.occupancy_limit ≠ b.occupancy_limit →
      b.occupancy_limit < batchMaxOcc b.cutoff b.mask_self pos1 pos2 ∧
      b'.occupancy_limit = batchMaxOcc b.cutoff b.mask_self pos1 pos2) ∧
    (∀ (cut : ℚ) (L : ℕ) (ms : Bool) (smv rmv : ℤ) (b₀ : GraphEdgesBuilder),
      GraphEdgesBuilder.init cut L ms smv rmv = some b₀ → b₀.occupancy_limit = L) := by
  obtain ⟨hle, -, -, -, -, hcase⟩ := call_monotone b Ns Nr pos1 pos2 so ro b' es h
  refine ⟨hle, ?_, ?_⟩
  · intro hne
    rcases hcase with hb | ⟨hlt, heq⟩
    · exact absurd (by rw [hb]) hne
    · exact ⟨hlt, heq⟩
  · intro cut L ms smv rmv b₀ hinit
    unfold GraphEdgesBuilder.init at hinit
    by_cases hc : ms = false ∨ smv = rmv
    · rw [if_pos hc] at hinit
      simp only [Option.some.injEq] at hinit
      rw [← hinit]
    · rw [if_neg hc] at hinit
      cases hinit

/-- C5 witness: on a concrete overflowing call the limit grows from 1 to the
observed maximum 4 and never below the old value. -/
theorem spec_occupancy_monotone_witness :
    (⟨10, 1, false, 2, 2⟩ : GraphEdgesBuilder).occupancy_limit ≤
      (⟨10, 4, false, 2, 2⟩ : GraphEdgesBuilder).occupancy_limit ∧
    (⟨10, 1, false, 2, 2⟩ : GraphEdgesBuilder).occupancy_limit <
      batchMaxOcc 10 false [[⟨0, 0, 0⟩, ⟨1, 0, 0⟩]] [[⟨0, 0, 0⟩, ⟨1, 0, 0⟩]] ∧
    (⟨10, 4, false, 2, 2⟩ : GraphEdgesBuilder).occupancy_limit =
      batchMaxOcc 10 false [[⟨0, 0, 0⟩, ⟨1, 0, 0⟩]] [[⟨0, 0, 0⟩, ⟨1, 0, 0⟩]] :=
  ⟨(spec_occupancy_monotone ⟨10, 1, false, 2, 2⟩ 2 2
      [[⟨0, 0, 0⟩, ⟨1, 0, 0⟩]] [[⟨0, 0, 0⟩, ⟨1, 0, 0⟩]] 0 0 ⟨10, 4, false, 2, 2⟩
      [GraphEdges.mk [0, 0, 1, 1] [0, 1, 0, 1] none] (by decide)).1,
   (spec_occupancy_monotone ⟨10, 1, false, 2, 2⟩ 2 2
      [[⟨0, 0, 0⟩, ⟨1, 0, 0⟩]] [[⟨0, 0, 0⟩, ⟨1, 0, 0⟩]] 0 0 ⟨10, 4, false, 2, 2⟩
      [GraphEdges.mk [0, 0, 1, 1] [0, 1, 0, 1] none] (by decide)).2.1 (by decide)⟩

/-- C3: for a self-masking builder called with equal sender and receiver
offsets (as the factory does for the nucleus-nucleus and same-spin types),
no returned slot carries `sender = receiver` except the sentinel-filled
slots: whenever the two entries of a slot agree, they are the mask value. -/
theorem spec_no_self_edges (b : GraphEdgesBuilder) (Ns Nr : ℕ)
    (pos1 pos2 : List (List Vec3)) (off : ℤ) (b' : GraphEdgesBuilder)
    (es : List GraphEdges) (hms : b.mask_self = true)
    (h : b.call Ns Nr pos1 pos2 off off = some (b', es)) :
    ∀ e ∈ es, ∀ p, p < e.senders.length →
      e.senders.getD p 0 = e.receivers.getD p 0 →
      e.senders.getD p 0 = b.send_mask_val := by
  intro e he p hp heq
  obtain ⟨-, hmem⟩ := call_mem_spec b Ns Nr pos1 pos2 off off b' es h
  obtain ⟨hls, -, -, hslots⟩ := hmem e he
  rw [hls] at hp
  rcases hslots p hp with ⟨h1, -⟩ | ⟨q, hq, s, r, hs, hr, h1, h2, -, -, hne⟩
  · exact h1
  · exfalso
    have hsr : s ≠ r := hne hms
    rw [h1, h2] at heq
    omega

/-- C3 witness: two identical positions 100 apart with self-masking keep no
edge at all, so slot 0 is a sentinel slot whose equal entries are the mask
value 2. -/
theorem spec_no_self_edges_witness :
    (GraphEdges.mk [2, 2] [2, 2] none).senders.getD 0 0 =
      (⟨10, 2, true, 2, 2⟩ : GraphEdgesBuilder).send_mask_val :=
  spec_no_self_edges ⟨10, 2, true, 2, 2⟩ 2 2
    [[⟨0, 0, 0⟩, ⟨100, 0, 0⟩]] [[⟨0, 0, 0⟩, ⟨100, 0, 0⟩]] 0 ⟨10, 2, true, 2, 2⟩
    [GraphEdges.mk [2, 2] [2, 2] none] rfl (by decide)
    (GraphEdges.mk [2, 2] [2, 2] none) (by decide) 0 (by decide) (by decide)

/-- C2: in every kernel invocation a candidate pair is kept iff its squared
distance is strictly below the squared cutoff (the exact-arithmetic form of
`distance < cutoff`) and the receiver index denotes a genuine particle
(`< Nr`); every kept candidate within capacity appears at its dense position
with the offsets added and satisfies those two conditions, and every other
slot holds the sentinel pair — so no pair at distance `≥ cutoff` ever
appears among the kept edges. -/
theorem spec_cutoff_correct (p1 p2 : List Vec3) (cut : ℚ) (L : ℕ) (ms : Bool)
    (so ro smv rmv : ℤ) :
    (∀ c : ℕ × ℕ, c ∈ keptEdges p1 p2 cut ms ↔
      c ∈ flatCandidates (graphIdx p1 p2 ms) ∧ 0 < cut ∧
        distSq (getPos p1 c.1) (getPos p2 c.2) < cut ^ 2 ∧ c.2 < p2.length) ∧
    (∀ p, p < L → p < (keptEdges p1 p2 cut ms).length →
      (compute_graph_edges p1 p2 cut L ms so ro smv rmv).senders.getD p 0 =
        (((keptEdges p1 p2 cut ms).getD p (0, 0)).1 : ℤ) + so ∧
      (compute_graph_edges p1 p2 cut L ms so ro smv rmv).receivers.getD p 0 =
        (((keptEdges p1 p2 cut ms).getD p (0, 0)).2 : ℤ) + ro ∧
      distSq (getPos p1 ((keptEdges p1 p2 cut ms).getD p (0, 0)).1)
        (getPos p2 ((keptEdges p1 p2 cut ms).getD p (0, 0)).2) < cut ^ 2 ∧
      ((keptEdges p1 p2 cut ms).getD p (0, 0)).2 < p2.length) ∧
    (∀ p, p < L → (keptEdges p1 p2 cut ms).length ≤ p →
      (compute_graph_edges p1 p2 cut L ms so ro smv rmv).senders.getD p 0 = smv ∧
      (compute_graph_edges p1 p2 cut L ms so ro smv rmv).receivers.getD p 0 = rmv) := by
  refine ⟨?_, ?_, ?_⟩
  · intro c
    unfold keptEdges
    rw [List.mem_filter, keepEdge_iff]
  · intro p hpL hpk
    unfold keptEdges at hpk ⊢
    unfold compute_graph_edges
    rw [prune_senders_getD p1 p2 cut (graphIdx p1 p2 ms) L so ro smv rmv p hpL,
      prune_receivers_getD p1 p2 cut (graphIdx p1 p2 ms) L so ro smv rmv p hpL,
      if_pos hpk, if_pos hpk]
    have hmem := getD_mem _ p ((0 : ℕ), (0 : ℕ)) hpk
    have hfil := List.mem_filter.1 hmem
    have hkeep := (keepEdge_iff p1 p2 cut _).1 hfil.2
    exact ⟨rfl, rfl, hkeep.2.1, hkeep.2.2⟩
  · intro p hpL hpk
    unfold keptEdges at hpk
    unfold compute_graph_edges
    rw [prune_senders_getD p1 p2 cut (graphIdx p1 p2 ms) L so ro smv rmv p hpL,
      prune_receivers_getD p1 p2 cut (graphIdx p1 p2 ms) L so ro smv rmv p hpL,
      if_neg (by omega), if_neg (by omega)]
    exact ⟨rfl, rfl⟩

/-- C2 witness: the spec scenario (two nuclei at 0 and 1 on the x-axis, one
electron at 1/2, cutoff 10): the first dense slot holds kept pair number 0
with its distance strictly below the cutoff. -/
theorem spec_cutoff_correct_witness :
    (compute_graph_edges [⟨0, 0, 0⟩, ⟨1, 0, 0⟩] [⟨1/2, 0, 0⟩] 10 2 false 0 0 2 1).senders.getD
        0 0 =
      (((keptEdges [⟨0, 0, 0⟩, ⟨1, 0, 0⟩] [⟨1/2, 0, 0⟩] 10 false).getD 0 (0, 0)).1 : ℤ) + 0 ∧
    (compute_graph_edges [⟨0, 0, 0⟩, ⟨1, 0, 0⟩] [⟨1/2, 0, 0⟩] 10 2 false 0 0 2 1).receivers.getD
        0 0 =
      (((keptEdges [⟨0, 0, 0⟩, ⟨1, 0, 0⟩] [⟨1/2, 0, 0⟩] 10 false).getD 0 (0, 0)).2 : ℤ) + 0 ∧
    distSq (getPos [⟨0, 0, 0⟩, ⟨1, 0, 0⟩]
        ((keptEdges [⟨0, 0, 0⟩, ⟨1, 0, 0⟩] [⟨1/2, 0, 0⟩] 10 false).getD 0 (0, 0)).1)
      (getPos [⟨1/2, 0, 0⟩]
        ((keptEdges [⟨0, 0, 0⟩, ⟨1, 0, 0⟩] [⟨1/2, 0, 0⟩] 10 false).getD 0 (0, 0)).2) < 10 ^ 2 ∧
    ((keptEdges [⟨0, 0, 0⟩, ⟨1, 0, 0⟩] [⟨1/2, 0, 0⟩] 10 false).getD 0 (0, 0)).2 <
      [(⟨1/2, 0, 0⟩ : Vec3)].length :=
  (spec_cutoff_correct [⟨0, 0, 0⟩, ⟨1, 0, 0⟩] [⟨1/2, 0, 0⟩] 10 2 false 0 0 2 1).2.1 0
    (by decide) (by decide)

/-- C4: when the number of kept candidates does not exceed the capacity, the
kernel packs them in enumeration order into consecutive slots `0..occ-1`
(with the caller's offsets added), reports exactly that count as the
occupancy, and fills every slot at or beyond the occupancy with exactly the
reserved mask values (not shifted by the offsets) — hence never a genuine
offset particle index whenever the mask values lie outside the offset index
ranges. -/
theorem spec_kernel_pack_invariants (ps pr : List Vec3) (cut : ℚ) (idx : List (List ℕ))
    (L : ℕ) (so ro smv rmv : ℤ)
    (hocc : ((flatCandidates idx).filter (keepEdge ps pr cut)).length ≤ L) :
    (prune_graph_edges ps pr cut idx L so ro smv rmv).data =
      some ((flatCandidates idx).filter (keepEdge ps pr cut)).length ∧
    (∀ k, k < ((flatCandidates idx).filter (keepEdge ps pr cut)).length →
      (prune_graph_edges ps pr cut idx L so ro smv rmv).senders.getD k 0 =
        ((((flatCandidates idx).filter (keepEdge ps pr cut)).getD k (0, 0)).1 : ℤ) + so ∧
      (prune_graph_edges ps pr cut idx L so ro smv rmv).receivers.getD k 0 =
        ((((flatCandidates idx).filter (keepEdge ps pr cut)).getD k (0, 0)).2 : ℤ) + ro) ∧
    (∀ p, ((flatCandidates idx).filter (keepEdge ps pr cut)).length ≤ p → p < L →
      (prune_graph_edges ps pr cut idx L so ro smv rmv).senders.getD p 0 = smv ∧
      (prune_graph_edges ps pr cut idx L so ro smv rmv).receivers.getD p 0 = rmv ∧
      (∀ i : ℕ, smv ≠ (i : ℤ) + so →
        (prune_graph_edges ps pr cut idx L so ro smv rmv).senders.getD p 0 ≠ (i : ℤ) + so) ∧
      (∀ i : ℕ, rmv ≠ (i : ℤ) + ro →
        (prune_graph_edges ps pr cut idx L so ro smv rmv).receivers.getD p 0 ≠ (i : ℤ) + ro)) := by
  refine ⟨prune_data ps pr cut idx L so ro smv rmv, ?_, ?_⟩
  · intro k hk
    have hkL : k < L := lt_of_lt_of_le hk hocc
    rw [prune_senders_getD ps pr cut idx L so ro smv rmv k hkL,
      prune_receivers_getD ps pr cut idx L so ro smv rmv k hkL, if_pos hk, if_pos hk]
    exact ⟨rfl, rfl⟩
  · intro p hp hpL
    rw [prune_senders_getD ps pr cut idx L so ro smv rmv p hpL,
      prune_receivers_getD ps pr cut idx L so ro smv rmv p hpL,
      if_neg (by omega), if_neg (by omega)]
    exact ⟨rfl, rfl, fun _ hi => hi, fun _ hi => hi⟩

/-- C4 witness: the spec scenario kernel run at capacity 2 reports occupancy
2 (both nuclei are within the cutoff of the electron), with no overflow. -/
theorem spec_kernel_pack_invariants_witness :
    (prune_graph_edges [⟨0, 0, 0⟩, ⟨1, 0, 0⟩] [⟨1/2, 0, 0⟩] 10
        (all_graph_edges [⟨0, 0, 0⟩, ⟨1, 0, 0⟩] [⟨1/2, 0, 0⟩]) 2 0 0 2 1).data =
      some ((flatCandidates (all_graph_edges [⟨0, 0, 0⟩, ⟨1, 0, 0⟩] [⟨1/2, 0, 0⟩])).filter
        (keepEdge [⟨0, 0, 0⟩, ⟨1, 0, 0⟩] [⟨1/2, 0, 0⟩] 10)).length :=
  (spec_kernel_pack_invariants [⟨0, 0, 0⟩, ⟨1, 0, 0⟩] [⟨1/2, 0, 0⟩] 10
    (all_graph_edges [⟨0, 0, 0⟩, ⟨1, 0, 0⟩] [⟨1/2, 0, 0⟩]) 2 0 0 2 1 (by decide)).1


/-- C1: when the true maximal occupancy of a batch exceeds the builder's
current occupancy limit, the call detects the overflow, permanently raises
the limit to that observed maximum, re-runs the kernel over the entire batch
at the new limit, and returns exactly the edge set that a builder
pre-configured with that sufficiently large limit returns from the start on
the same inputs and offsets (slot for slot, so in particular up to ordering
within the dense positions). -/
theorem spec_overflow_growth_refinement (b : GraphEdgesBuilder) (Ns Nr : ℕ)
    (pos1 pos2 : List (List Vec3)) (so ro : ℤ)
    (hg : callGuard b Ns Nr pos1 pos2) (hNs : Ns ≠ 0) (hNr : Nr ≠ 0) (hne : pos1 ≠ [])
    (hover : b.occupancy_limit < batchMaxOcc b.cutoff b.mask_self pos1 pos2) :
    ∃ es, b.call Ns Nr pos1 pos2 so ro =
        some ({ b with occupancy_limit := batchMaxOcc b.cutoff b.mask_self pos1 pos2 }, es) ∧
      GraphEdgesBuilder.call
          { b with occupancy_limit := batchMaxOcc b.cutoff b.mask_self pos1 pos2 }
          Ns Nr pos1 pos2 so ro =
        some ({ b with occupancy_limit := batchMaxOcc b.cutoff b.mask_self pos1 pos2 }, es) := by
  refine ⟨(runKernel b.cutoff b.mask_self b.send_mask_val b.rec_mask_val pos1 pos2 so ro
    (batchMaxOcc b.cutoff b.mask_self pos1 pos2)).map stripOcc, ?_, ?_⟩
  · rw [call_pos b Ns Nr pos1 pos2 so ro hg hNs hNr hne, if_pos hover]
  · have hg2 : callGuard
        { b with occupancy_limit := batchMaxOcc b.cutoff b.mask_self pos1 pos2 }
        Ns Nr pos1 pos2 := hg
    rw [call_pos _ Ns Nr pos1 pos2 so ro hg2 hNs hNr hne, if_neg (lt_irrefl _)]

/-- C1 witness: with initial limit 1, a 2x2 all-close configuration has true
occupancy 4; the call grows the limit to 4 and agrees with a builder
pre-configured at limit 4. -/
theorem spec_overflow_growth_refinement_witness :
    GraphEdgesBuilder.call ⟨10, 1, false, 2, 2⟩ 2 2
        [[⟨0, 0, 0⟩, ⟨1, 0, 0⟩]] [[⟨0, 0, 0⟩, ⟨1, 0, 0⟩]] 0 0 =
      some (⟨10, 4, false, 2, 2⟩, [GraphEdges.mk [0, 0, 1, 1] [0, 1, 0, 1] none]) ∧
    GraphEdgesBuilder.call ⟨10, 4, false, 2, 2⟩ 2 2
        [[⟨0, 0, 0⟩, ⟨1, 0, 0⟩]] [[⟨0, 0, 0⟩, ⟨1, 0, 0⟩]] 0 0 =
      some (⟨10, 4, false, 2, 2⟩, [GraphEdges.mk [0, 0, 1, 1] [0, 1, 0, 1] none]) := by
  obtain ⟨es, h1, h2⟩ := spec_overflow_growth_refinement ⟨10, 1, false, 2, 2⟩ 2 2
    [[⟨0, 0, 0⟩, ⟨1, 0, 0⟩]] [[⟨0, 0, 0⟩, ⟨1, 0, 0⟩]] 0 0
    (by decide) (by decide) (by decide) (by decide) (by decide)
  have hc : GraphEdgesBuilder.call ⟨10, 1, false, 2, 2⟩ 2 2
      [[⟨0, 0, 0⟩, ⟨1, 0, 0⟩]] [[⟨0, 0, 0⟩, ⟨1, 0, 0⟩]] 0 0 =
      some (⟨10, 4, false, 2, 2⟩, [GraphEdges.mk [0, 0, 1, 1] [0, 1, 0, 1] none]) := by
    decide
  rw [h1] at hc
  simp only [Option.some.injEq, Prod.mk.injEq] at hc
  obtain ⟨-, hes⟩ := hc
  subst hes
  exact ⟨h1, h2⟩

/-- C8 counterexample: a call whose shape preconditions all hold (equal batch
prefixes, no self-masking constraint) but whose flattened batch is empty
while both particle counts are nonzero neither completes nor fails a shape
precondition: `jnp.max` over the empty per-element occupancy array raises a
`ValueError`, modelled by `none`.  This refutes the claim that every build
call either completes fully or raises on one of the listed shape
preconditions. -/
theorem spec_call_total_cex :
    GraphEdgesBuilder.call ⟨10, 2, false, 3, 3⟩ 1 1 ([] : List (List Vec3)) [] 0 0 = none ∧
    callGuard ⟨10, 2, false, 3, 3⟩ 1 1 ([] : List (List Vec3)) [] := by
  exact ⟨by decide, by decide⟩

/-- C8 (amended): a build call returns `none` (raises) exactly when a shape
precondition fails or when both particle counts are nonzero but the
flattened batch is empty (the maximum of the empty occupancy array); in
every other case it completes fully.  Capacity overflow is never surfaced as
an error: after a successful call, re-running the same inputs on the
returned builder causes no further growth and reproduces the identical edge
set (so a call recomputes the batch at most once). -/
theorem spec_call_total_amended (b : GraphEdgesBuilder) (Ns Nr : ℕ)
    (pos1 pos2 : List (List Vec3)) (so ro : ℤ) :
    (b.call Ns Nr pos1 pos2 so ro = none ↔
      ¬ callGuard b Ns Nr pos1 pos2 ∨ (Ns ≠ 0 ∧ Nr ≠ 0 ∧ pos1 = [])) ∧
    (∀ b2 es, b.call Ns Nr pos1 pos2 so ro = some (b2, es) →
      b2.call Ns Nr pos1 pos2 so ro = some (b2, es)) :=
  ⟨call_none_iff b Ns Nr pos1 pos2 so ro,
   fun b2 es h => call_idempotent b Ns Nr pos1 pos2 so ro b2 es h⟩

/-- C8 witness: after the overflowing call grows the limit from 1 to 4, the
grown builder reproduces the same edge set on the same inputs with no
further recomputation or growth. -/
theorem spec_call_total_amended_witness :
    GraphEdgesBuilder.call ⟨10, 4, false, 2, 2⟩ 2 2
      [[⟨0, 0, 0⟩, ⟨1, 0, 0⟩]] [[⟨0, 0, 0⟩, ⟨1, 0, 0⟩]] 0 0 =
      some (⟨10, 4, false, 2, 2⟩, [GraphEdges.mk [0, 0, 1, 1] [0, 1, 0, 1] none]) :=
  (spec_call_total_amended ⟨10, 1, false, 2, 2⟩ 2 2
    [[⟨0, 0, 0⟩, ⟨1, 0, 0⟩]] [[⟨0, 0, 0⟩, ⟨1, 0, 0⟩]] 0 0).2
    ⟨10, 4, false, 2, 2⟩ [GraphEdges.mk [0, 0, 1, 1] [0, 1, 0, 1] none] (by decide)


theorem transpose_cat_mem (e1 : List GraphEdges) : ∀ (e2 : List GraphEdges) (e : GraphEdges),
    e ∈ transpose_cat e1 e2 →
    ∃ a ∈ e1, ∃ c ∈ e2,
      e = GraphEdges.mk (a.senders ++ c.senders) (a.receivers ++ c.receivers) none := by
  induction e1 with
  | nil => intro e2 e he; simp [transpose_cat] at he
  | cons a as ih =>
    intro e2 e he
    cases e2 with
    | nil => simp [transpose_cat] at he
    | cons c cs =>
      simp only [transpose_cat, List.zipWith_cons_cons, List.mem_cons] at he
      rcases he with rfl | he
      · exact ⟨a, List.mem_cons_self a as, c, List.mem_cons_self c cs, rfl⟩
      · obtain ⟨a2, ha2, c2, hc2, heq⟩ := ih cs e he
        exact ⟨a2, List.mem_cons_of_mem a ha2, c2, List.mem_cons_of_mem c hc2, heq⟩

theorem call_block_range (b : GraphEdgesBuilder) (Ns Nr N M : ℕ)
    (pos1 pos2 : List (List Vec3)) (so ro : ℤ) (b' : GraphEdgesBuilder)
    (es : List GraphEdges) (h : b.call Ns Nr pos1 pos2 so ro = some (b', es))
    (h1 : ∀ q ∈ pos1, q.length = N) (h2 : ∀ q ∈ pos2, q.length = M) :
    ∀ e ∈ es, e.senders.length = b'.occupancy_limit ∧
      e.receivers.length = b'.occupancy_limit ∧
      ∀ p, p < b'.occupancy_limit →
        (e.senders.getD p 0 = b.send_mask_val ∨
          (so ≤ e.senders.getD p 0 ∧ e.senders.getD p 0 < so + N)) ∧
        (e.receivers.getD p 0 = b.rec_mask_val ∨
          (ro ≤ e.receivers.getD p 0 ∧ e.receivers.getD p 0 < ro + M)) := by
  intro e he
  obtain ⟨-, hmem⟩ := call_mem_spec b Ns Nr pos1 pos2 so ro b' es h
  obtain ⟨hls, hlr, -, hslots⟩ := hmem e he
  refine ⟨hls, hlr, ?_⟩
  intro p hp
  rcases hslots p hp with ⟨hs, hr⟩ | ⟨q, hq, z, r, hzN, hrM, hs, hr, -, -, -⟩
  · exact ⟨Or.inl hs, Or.inl hr⟩
  · obtain ⟨q1, q2⟩ := q
    obtain ⟨hq1, hq2⟩ := List.of_mem_zip hq
    have hN : q1.length = N := h1 q1 hq1
    have hM : q2.length = M := h2 q2 hq2
    simp only at hzN hrM
    rw [hN] at hzN
    rw [hM] at hrM
    constructor
    · right
      rw [hs]
      omega
    · right
      rw [hr]
      omega

theorem concat_block_spec (b b1 b2 : GraphEdgesBuilder)
    (Ns1 Nr1 Ns2 Nr2 N1 M1 N2 M2 : ℕ) (ps1 pr1 ps2 pr2 : List (List Vec3))
    (so1 ro1 so2 ro2 : ℤ) (e1 e2 : List GraphEdges)
    (hc1 : b.call Ns1 Nr1 ps1 pr1 so1 ro1 = some (b1, e1))
    (hc2 : b1.call Ns2 Nr2 ps2 pr2 so2 ro2 = some (b2, e2))
    (h11 : ∀ q ∈ ps1, q.length = N1) (h12 : ∀ q ∈ pr1, q.length = M1)
    (h21 : ∀ q ∈ ps2, q.length = N2) (h22 : ∀ q ∈ pr2, q.length = M2) :
    (∀ e ∈ transpose_cat e1 e2,
      e.senders.length = b1.occupancy_limit + b2.occupancy_limit ∧
      e.receivers.length = b1.occupancy_limit + b2.occupancy_limit) ∧
    (∀ e ∈ e1, ∀ p, p < b1.occupancy_limit →
      (e.senders.getD p 0 = b.send_mask_val ∨
        (so1 ≤ e.senders.getD p 0 ∧ e.senders.getD p 0 < so1 + N1)) ∧
      (e.receivers.getD p 0 = b.rec_mask_val ∨
        (ro1 ≤ e.receivers.getD p 0 ∧ e.receivers.getD p 0 < ro1 + M1))) ∧
    (∀ e ∈ e2, ∀ p, p < b2.occupancy_limit →
      (e.senders.getD p 0 = b.send_mask_val ∨
        (so2 ≤ e.senders.getD p 0 ∧ e.senders.getD p 0 < so2 + N2)) ∧
      (e.receivers.getD p 0 = b.rec_mask_val ∨
        (ro2 ≤ e.receivers.getD p 0 ∧ e.receivers.getD p 0 < ro2 + M2))) := by
  have hb1 := call_block_range b Ns1 Nr1 N1 M1 ps1 pr1 so1 ro1 b1 e1 hc1 h11 h12
  have hb2 := call_block_range b1 Ns2 Nr2 N2 M2 ps2 pr2 so2 ro2 b2 e2 hc2 h21 h22
  obtain ⟨-, -, -, hsm1, hrm1, -⟩ := call_monotone b Ns1 Nr1 ps1 pr1 so1 ro1 b1 e1 hc1
  refine ⟨?_, ?_, ?_⟩
  · intro e he
    obtain ⟨a, ha, c, hc, rfl⟩ := transpose_cat_mem e1 e2 e he
    obtain ⟨hla, -, -⟩ := hb1 a ha
    obtain ⟨hlc, hlc2, -⟩ := hb2 c hc
    obtain ⟨-, hla2, -⟩ := hb1 a ha
    constructor
    · show (a.senders ++ c.senders).length = _
      rw [List.length_append, hla, hlc]
    · show (a.receivers ++ c.receivers).length = _
      rw [List.length_append, hla2, hlc2]
  · intro e he p hp
    exact (hb1 e he).2.2 p hp
  · intro e he p hp
    rcases (hb2 e he).2.2 p hp with ⟨hs, hr⟩
    rw [hsm1] at hs
    rw [hrm1] at hr
    exact ⟨hs, hr⟩

theorem take_rows_length (rs : List (List Vec3)) (n_up n_down : ℕ)
    (hrect : ∀ row ∈ rs, row.length = n_up + n_down) :
    ∀ q ∈ rs.map (fun r => r.take n_up), q.length = n_up := by
  intro q hq
  obtain ⟨row, hrow, rfl⟩ := List.mem_map.1 hq
  rw [List.length_take, hrect row hrow]
  omega

theorem drop_rows_length (rs : List (List Vec3)) (n_up n_down : ℕ)
    (hrect : ∀ row ∈ rs, row.length = n_up + n_down) :
    ∀ q ∈ rs.map (fun r => r.drop n_up), q.length = n_down := by
  intro q hq
  obtain ⟨row, hrow, rfl⟩ := List.mem_map.1 hq
  rw [List.length_drop, hrect row hrow]
  omega

/-- C6: for the same-spin and opposite-spin edge types on a full electron
configuration, the factory performs two calls on the one typed builder (one
per spin-block pairing) and concatenates per batch element along the edge
axis, so every concatenated edge set has length equal to the sum of the two
constituent calls' occupancy limits (capacities), and every non-sentinel
sender/receiver index lies in the global index range of its spin block —
`[0, n_up)` for the spin-up side and `[n_up, n_up + n_down)` for the
offset spin-down side (the sentinel is the configured mask value
`n_up + n_down`, the electron count). -/
theorem spec_spin_concat (n_up n_down : ℕ) (rs : List (List Vec3))
    (hrect : ∀ row ∈ rs, row.length = n_up + n_down) :
    (∀ (b b2 : GraphEdgesBuilder) (es : List GraphEdges), b.mask_self = true →
      b.send_mask_val = (n_up : ℤ) + n_down → b.rec_mask_val = (n_up : ℤ) + n_down →
      build_same b n_up n_down rs = some (b2, es) →
      ∃ b1 e1 e2,
        b.call n_up n_up (rs.map (fun r => r.take n_up)) (rs.map (fun r => r.take n_up)) 0 0
          = some (b1, e1) ∧
        b1.call n_down n_down (rs.map (fun r => r.drop n_up)) (rs.map (fun r => r.drop n_up))
          ((n_up : ℕ) : ℤ) ((n_up : ℕ) : ℤ) = some (b2, e2) ∧
        es = transpose_cat e1 e2 ∧
        (∀ e ∈ es, e.senders.length = b1.occupancy_limit + b2.occupancy_limit ∧
          e.receivers.length = b1.occupancy_limit + b2.occupancy_limit) ∧
        (∀ e ∈ e1, ∀ p, p < b1.occupancy_limit →
          (e.senders.getD p 0 = (n_up : ℤ) + n_down ∨
            (0 ≤ e.senders.getD p 0 ∧ e.senders.getD p 0 < (n_up : ℤ))) ∧
          (e.receivers.getD p 0 = (n_up : ℤ) + n_down ∨
            (0 ≤ e.receivers.getD p 0 ∧ e.receivers.getD p 0 < (n_up : ℤ)))) ∧
        (∀ e ∈ e2, ∀ p, p < b2.occupancy_limit →
          (e.senders.getD p 0 = (n_up : ℤ) + n_down ∨
            ((n_up : ℤ) ≤ e.senders.getD p 0 ∧ e.senders.getD p 0 < (n_up : ℤ) + n_down)) ∧
          (e.receivers.getD p 0 = (n_up : ℤ) + n_down ∨
            ((n_up : ℤ) ≤ e.receivers.getD p 0 ∧
              e.receivers.getD p 0 < (n_up : ℤ) + n_down)))) ∧
    (∀ (b b2 : GraphEdgesBuilder) (es : List GraphEdges),
      b.send_mask_val = (n_up : ℤ) + n_down → b.rec_mask_val = (n_up : ℤ) + n_down →
      build_anti b n_up n_down rs = some (b2, es) →
      ∃ b1 e1 e2,
        b.call n_up n_down (rs.map (fun r => r.take n_up)) (rs.map (fun r => r.drop n_up))
          0 ((n_up : ℕ) : ℤ) = some (b1, e1) ∧
        b1.call n_down n_up (rs.map (fun r => r.drop n_up)) (rs.map (fun r => r.take n_up))
          ((n_up : ℕ) : ℤ) 0 = some (b2, e2) ∧
        es = transpose_cat e1 e2 ∧
        (∀ e ∈ es, e.senders.length = b1.occupancy_limit + b2.occupancy_limit ∧
          e.receivers.length = b1.occupancy_limit + b2.occupancy_limit) ∧
        (∀ e ∈ e1, ∀ p, p < b1.occupancy_limit →
          (e.senders.getD p 0 = (n_up : ℤ) + n_down ∨
            (0 ≤ e.senders.getD p 0 ∧ e.senders.getD p 0 < (n_up : ℤ))) ∧
          (e.receivers.getD p 0 = (n_up : ℤ) + n_down ∨
            ((n_up : ℤ) ≤ e.receivers.getD p 0 ∧
              e.receivers.getD p 0 < (n_up : ℤ) + n_down))) ∧
        (∀ e ∈ e2, ∀ p, p < b2.occupancy_limit →
          (e.senders.getD p 0 = (n_up : ℤ) + n_down ∨
            ((n_up : ℤ) ≤ e.senders.getD p 0 ∧ e.senders.getD p 0 < (n_up : ℤ) + n_down)) ∧
          (e.receivers.getD p 0 = (n_up : ℤ) + n_down ∨
            (0 ≤ e.receivers.getD p 0 ∧ e.receivers.getD p 0 < (n_up : ℤ))))) := by
  have h1 := take_rows_length rs n_up n_down hrect
  have h2 := drop_rows_length rs n_up n_down hrect
  constructor
  · intro b b2 es hms hsm hrm h
    simp only [build_same] at h
    cases hc1 : b.call n_up n_up (rs.map (fun r => r.take n_up))
        (rs.map (fun r => r.take n_up)) 0 0 with
    | none => simp [hc1] at h
    | some be1 =>
      obtain ⟨b1, e1⟩ := be1
      simp only [hc1] at h
      cases hc2 : b1.call n_down n_down (rs.map (fun r => r.drop n_up))
          (rs.map (fun r => r.drop n_up)) ((n_up : ℕ) : ℤ) ((n_up : ℕ) : ℤ) with
      | none => simp [hc2] at h
      | some be2 =>
        obtain ⟨b21, e2⟩ := be2
        simp only [hc2, Option.some.injEq, Prod.mk.injEq] at h
        obtain ⟨hb, hes⟩ := h
        subst hb
        obtain ⟨hlen, hblk1, hblk2⟩ := concat_block_spec b b1 b21
          n_up n_up n_down n_down n_up n_up n_down n_down
          (rs.map (fun r => r.take n_up)) (rs.map (fun r => r.take n_up))
          (rs.map (fun r => r.drop n_up)) (rs.map (fun r => r.drop n_up))
          0 0 ((n_up : ℕ) : ℤ) ((n_up : ℕ) : ℤ) e1 e2 hc1 hc2 h1 h1 h2 h2
        refine ⟨b1, e1, e2, rfl, hc2, hes.symm, ?_, ?_, ?_⟩
        · intro e he
          rw [← hes] at he
          exact hlen e he
        · intro e he p hp
          rcases hblk1 e he p hp with ⟨hs, hr⟩
          constructor
          · rcases hs with hs | hs
            · left; rw [hs]; exact hsm
            · right; omega
          · rcases hr with hr | hr
            · left; rw [hr]; exact hrm
            · right; omega
        · intro e he p hp
          rcases hblk2 e he p hp with ⟨hs, hr⟩
          constructor
          · rcases hs with hs | hs
            · left; rw [hs]; exact hsm
            · right; omega
          · rcases hr with hr | hr
            · left; rw [hr]; exact hrm
            · right; omega
  · intro b b2 es hsm hrm h
    simp only [build_anti] at h
    cases hc1 : b.call n_up n_down (rs.map (fun r => r.take n_up))
        (rs.map (fun r => r.drop n_up)) 0 ((n_up : ℕ) : ℤ) with
    | none => simp [hc1] at h
    | some be1 =>
      obtain ⟨b1, e1⟩ := be1
      simp only [hc1] at h
      cases hc2 : b1.call n_down n_up (rs.map (fun r => r.drop n_up))
          (rs.map (fun r => r.take n_up)) ((n_up : ℕ) : ℤ) 0 with
      | none => simp [hc2] at h
      | some be2 =>
        obtain ⟨b21, e2⟩ := be2
        simp only [hc2, Option.some.injEq, Prod.mk.injEq] at h
        obtain ⟨hb, hes⟩ := h
        subst hb
        obtain ⟨hlen, hblk1, hblk2⟩ := concat_block_spec b b1 b21
          n_up n_down n_down n_up n_up n_down n_down n_up
          (rs.map (fun r => r.take n_up)) (rs.map (fun r => r.drop n_up))
          (rs.map (fun r => r.drop n_up)) (rs.map (fun r => r.take n_up))
          0 ((n_up : ℕ) : ℤ) ((n_up : ℕ) : ℤ) 0 e1 e2 hc1 hc2 h1 h2 h2 h1
        refine ⟨b1, e1, e2, rfl, hc2, hes.symm, ?_, ?_, ?_⟩
        · intro e he
          rw [← hes] at he
          exact hlen e he
        · intro e he p hp
          rcases hblk1 e he p hp with ⟨hs, hr⟩
          constructor
          · rcases hs with hs | hs
            · left; rw [hs]; exact hsm
            · right; omega
          · rcases hr with hr | hr
            · left; rw [hr]; exact hrm
            · right; omega
        · intro e he p hp
          rcases hblk2 e he p hp with ⟨hs, hr⟩
          constructor
          · rcases hs with hs | hs
            · left; rw [hs]; exact hsm
            · right; omega
          · rcases hr with hr | hr
            · left; rw [hr]; exact hrm
            · right; omega

/-- C6 witness: one batch element with one spin-up electron at the origin and
two spin-down electrons at 1 and 2 on the x-axis, mask value 3: the
concatenated same-spin edge set is the sentinel-filled up-block of capacity 2
followed by the two offset down-down edges, its length is the sum of the two
capacities, and the first down-block sender index 1 lies in the offset range. -/
theorem spec_spin_concat_witness :
    [GraphEdges.mk [3, 3, 1, 2] [3, 3, 2, 1] none] =
      transpose_cat [GraphEdges.mk [3, 3] [3, 3] none] [GraphEdges.mk [1, 2] [2, 1] none] ∧
    (GraphEdges.mk [3, 3, 1, 2] [3, 3, 2, 1] none).senders.length =
      (⟨10, 2, true, 3, 3⟩ : GraphEdgesBuilder).occupancy_limit +
        (⟨10, 2, true, 3, 3⟩ : GraphEdgesBuilder).occupancy_limit ∧
    ((GraphEdges.mk [1, 2] [2, 1] none).senders.getD 0 0 = ((1 : ℕ) : ℤ) + (2 : ℕ) ∨
      (((1 : ℕ) : ℤ) ≤ (GraphEdges.mk [1, 2] [2, 1] none).senders.getD 0 0 ∧
        (GraphEdges.mk [1, 2] [2, 1] none).senders.getD 0 0 < ((1 : ℕ) : ℤ) + (2 : ℕ))) := by
  obtain ⟨b1, e1, e2, hc1, hc2, hes, hlen, hblk1, hblk2⟩ :=
    (spec_spin_concat 1 2 [[⟨0, 0, 0⟩, ⟨1, 0, 0⟩, ⟨2, 0, 0⟩]] (by decide)).1
      ⟨10, 2, true, 3, 3⟩ ⟨10, 2, true, 3, 3⟩ [GraphEdges.mk [3, 3, 1, 2] [3, 3, 2, 1] none]
      rfl (by decide) (by decide) (by decide)
  have h1c : GraphEdgesBuilder.call ⟨10, 2, true, 3, 3⟩ 1 1
      ([[⟨0, 0, 0⟩, ⟨1, 0, 0⟩, ⟨2, 0, 0⟩]].map (fun r => r.take 1))
      ([[⟨0, 0, 0⟩, ⟨1, 0, 0⟩, ⟨2, 0, 0⟩]].map (fun r => r.take 1)) 0 0 =
      some (⟨10, 2, true, 3, 3⟩, [GraphEdges.mk [3, 3] [3, 3] none]) := by decide
  rw [hc1] at h1c
  simp only [Option.some.injEq, Prod.mk.injEq] at h1c
  obtain ⟨hb1, he1⟩ := h1c
  subst hb1
  subst he1
  have h2c : GraphEdgesBuilder.call ⟨10, 2, true, 3, 3⟩ 2 2
      ([[⟨0, 0, 0⟩, ⟨1, 0, 0⟩, ⟨2, 0, 0⟩]].map (fun r => r.drop 1))
      ([[⟨0, 0, 0⟩, ⟨1, 0, 0⟩, ⟨2, 0, 0⟩]].map (fun r => r.drop 1)) ((1 : ℕ) : ℤ)
      ((1 : ℕ) : ℤ) =
      some (⟨10, 2, true, 3, 3⟩, [GraphEdges.mk [1, 2] [2, 1] none]) := by decide
  rw [hc2] at h2c
  simp only [Option.some.injEq, Prod.mk.injEq] at h2c
  obtain ⟨-, he2⟩ := h2c
  subst he2
  refine ⟨hes, (hlen _ (by simp)).1, ?_⟩
  exact (hblk2 _ (by simp) 0 (by decide)).1

/-- C10: within one factory invocation of a spin-split edge type — same-spin
and opposite-spin alike — both spin-block computations are issued to the same
single builder instance, threaded through state: the second block call starts
from the builder state returned by the first, so a limit grown by the first
block is already in force for the second, the occupancy limit is monotone
across the two calls, and each block's capacity is its call's limit — which
can differ between the two concatenated blocks of a single returned edge set,
as the concrete instance (capacities 2 and 6 in one result) shows. -/
theorem spec_shared_builder_spin_blocks :
    (∀ (b : GraphEdgesBuilder) (n_up n_down : ℕ) (rs : List (List Vec3))
      (b2 : GraphEdgesBuilder) (es : List GraphEdges),
      build_same b n_up n_down rs = some (b2, es) →
      ∃ b1 e1 e2,
        b.call n_up n_up (rs.map (fun r => r.take n_up)) (rs.map (fun r => r.take n_up)) 0 0
          = some (b1, e1) ∧
        b1.call n_down n_down (rs.map (fun r => r.drop n_up)) (rs.map (fun r => r.drop n_up))
          ((n_up : ℕ) : ℤ) ((n_up : ℕ) : ℤ) = some (b2, e2) ∧
        es = transpose_cat e1 e2 ∧
        b.occupancy_limit ≤ b1.occupancy_limit ∧ b1.occupancy_limit ≤ b2.occupancy_limit ∧
        (∀ e ∈ e1, e.senders.length = b1.occupancy_limit) ∧
        (∀ e ∈ e2, e.senders.length = b2.occupancy_limit)) ∧
    (∀ (b : GraphEdgesBuilder) (n_up n_down : ℕ) (rs : List (List Vec3))
      (b2 : GraphEdgesBuilder) (es : List GraphEdges),
      build_anti b n_up n_down rs = some (b2, es) →
      ∃ b1 e1 e2,
        b.call n_up n_down (rs.map (fun r => r.take n_up)) (rs.map (fun r => r.drop n_up))
          0 ((n_up : ℕ) : ℤ) = some (b1, e1) ∧
        b1.call n_down n_up (rs.map (fun r => r.drop n_up)) (rs.map (fun r => r.take n_up))
          ((n_up : ℕ) : ℤ) 0 = some (b2, e2) ∧
        es = transpose_cat e1 e2 ∧
        b.occupancy_limit ≤ b1.occupancy_limit ∧ b1.occupancy_limit ≤ b2.occupancy_limit ∧
        (∀ e ∈ e1, e.senders.length = b1.occupancy_limit) ∧
        (∀ e ∈ e2, e.senders.length = b2.occupancy_limit)) ∧
    (GraphEdgesBuilder.call ⟨10, 2, true, 4, 4⟩ 1 1 [[⟨0, 0, 0⟩]] [[⟨0, 0, 0⟩]] 0 0 =
        some (⟨10, 2, true, 4, 4⟩, [GraphEdges.mk [4, 4] [4, 4] none]) ∧
      GraphEdgesBuilder.call ⟨10, 2, true, 4, 4⟩ 3 3
          [[⟨1, 0, 0⟩, ⟨2, 0, 0⟩, ⟨3, 0, 0⟩]] [[⟨1, 0, 0⟩, ⟨2, 0, 0⟩, ⟨3, 0, 0⟩]] 1 1 =
        some (⟨10, 6, true, 4, 4⟩, [GraphEdges.mk [1, 1, 2, 2, 3, 3] [2, 3, 1, 3, 1, 2] none]) ∧
      build_same ⟨10, 2, true, 4, 4⟩ 1 3 [[⟨0, 0, 0⟩, ⟨1, 0, 0⟩, ⟨2, 0, 0⟩, ⟨3, 0, 0⟩]] =
        some (⟨10, 6, true, 4, 4⟩,
          [GraphEdges.mk [4, 4, 1, 1, 2, 2, 3, 3] [4, 4, 2, 3, 1, 3, 1, 2] none]) ∧
      (2 : ℕ) ≠ 6) := by
  refine ⟨?_, ?_, ?_⟩
  · intro b n_up n_down rs b2 es h
    simp only [build_same] at h
    cases hc1 : b.call n_up n_up (rs.map (fun r => r.take n_up))
        (rs.map (fun r => r.take n_up)) 0 0 with
    | none => simp [hc1] at h
    | some be1 =>
      obtain ⟨b1, e1⟩ := be1
      simp only [hc1] at h
      cases hc2 : b1.call n_down n_down (rs.map (fun r => r.drop n_up))
          (rs.map (fun r => r.drop n_up)) ((n_up : ℕ) : ℤ) ((n_up : ℕ) : ℤ) with
      | none => simp [hc2] at h
      | some be2 =>
        obtain ⟨b21, e2⟩ := be2
        simp only [hc2, Option.some.injEq, Prod.mk.injEq] at h
        obtain ⟨hb, hes⟩ := h
        subst hb
        obtain ⟨hm1, -, -, -, -, -⟩ := call_monotone b n_up n_up
          (rs.map (fun r => r.take n_up)) (rs.map (fun r => r.take n_up)) 0 0 b1 e1 hc1
        obtain ⟨hm2, -, -, -, -, -⟩ := call_monotone b1 n_down n_down
          (rs.map (fun r => r.drop n_up)) (rs.map (fun r => r.drop n_up))
          ((n_up : ℕ) : ℤ) ((n_up : ℕ) : ℤ) b21 e2 hc2
        obtain ⟨-, hspec1⟩ := call_mem_spec b n_up n_up
          (rs.map (fun r => r.take n_up)) (rs.map (fun r => r.take n_up)) 0 0 b1 e1 hc1
        obtain ⟨-, hspec2⟩ := call_mem_spec b1 n_down n_down
          (rs.map (fun r => r.drop n_up)) (rs.map (fun r => r.drop n_up))
          ((n_up : ℕ) : ℤ) ((n_up : ℕ) : ℤ) b21 e2 hc2
        refine ⟨b1, e1, e2, rfl, hc2, hes.symm, hm1, hm2, ?_, ?_⟩
        · intro e he
          exact (hspec1 e he).1
        · intro e he
          exact (hspec2 e he).1
  · intro b n_up n_down rs b2 es h
    simp only [build_anti] at h
    cases hc1 : b.call n_up n_down (rs.map (fun r => r.take n_up))
        (rs.map (fun r => r.drop n_up)) 0 ((n_up : ℕ) : ℤ) with
    | none => simp [hc1] at h
    | some be1 =>
      obtain ⟨b1, e1⟩ := be1
      simp only [hc1] at h
      cases hc2 : b1.call n_down n_up (rs.map (fun r => r.drop n_up))
          (rs.map (fun r => r.take n_up)) ((n_up : ℕ) : ℤ) 0 with
      | none => simp [hc2] at h
      | some be2 =>
        obtain ⟨b21, e2⟩ := be2
        simp only [hc2, Option.some.injEq, Prod.mk.injEq] at h
        obtain ⟨hb, hes⟩ := h
        subst hb
        obtain ⟨hm1, -, -, -, -, -⟩ := call_monotone b n_up n_down
          (rs.map (fun r => r.take n_up)) (rs.map (fun r => r.drop n_up)) 0
          ((n_up : ℕ) : ℤ) b1 e1 hc1
        obtain ⟨hm2, -, -, -, -, -⟩ := call_monotone b1 n_down n_up
          (rs.map (fun r => r.drop n_up)) (rs.map (fun r => r.take n_up))
          ((n_up : ℕ) : ℤ) 0 b21 e2 hc2
        obtain ⟨-, hspec1⟩ := call_mem_spec b n_up n_down
          (rs.map (fun r => r.take n_up)) (rs.map (fun r => r.drop n_up)) 0
          ((n_up : ℕ) : ℤ) b1 e1 hc1
        obtain ⟨-, hspec2⟩ := call_mem_spec b1 n_down n_up
          (rs.map (fun r => r.drop n_up)) (rs.map (fun r => r.take n_up))
          ((n_up : ℕ) : ℤ) 0 b21 e2 hc2
        refine ⟨b1, e1, e2, rfl, hc2, hes.symm, hm1, hm2, ?_, ?_⟩
        · intro e he
          exact (hspec1 e he).1
        · intro e he
          exact (hspec2 e he).1
  · refine ⟨by decide, by decide, by decide, by decide⟩

/-- C10 witness: the same-spin grown-capacity instance (one spin-up particle,
three close spin-down particles, initial limit 2) has the first block call
keep limit 2 while the second grows the shared builder to 6, giving unequal
block capacities in one returned edge set; and an opposite-spin instance (one
up, two down electrons) threads the one anti builder through its two calls
the same way, each block at its call's capacity. -/
theorem spec_shared_builder_spin_blocks_witness :
    (⟨10, 2, true, 4, 4⟩ : GraphEdgesBuilder).occupancy_limit ≤
      (⟨10, 2, true, 4, 4⟩ : GraphEdgesBuilder).occupancy_limit ∧
    (⟨10, 2, true, 4, 4⟩ : GraphEdgesBuilder).occupancy_limit ≤
      (⟨10, 6, true, 4, 4⟩ : GraphEdgesBuilder).occupancy_limit ∧
    [GraphEdges.mk [4, 4, 1, 1, 2, 2, 3, 3] [4, 4, 2, 3, 1, 3, 1, 2] none] =
      transpose_cat [GraphEdges.mk [4, 4] [4, 4] none]
        [GraphEdges.mk [1, 1, 2, 2, 3, 3] [2, 3, 1, 3, 1, 2] none] ∧
    (GraphEdges.mk [4, 4] [4, 4] none).senders.length =
      (⟨10, 2, true, 4, 4⟩ : GraphEdgesBuilder).occupancy_limit ∧
    (GraphEdges.mk [1, 1, 2, 2, 3, 3] [2, 3, 1, 3, 1, 2] none).senders.length =
      (⟨10, 6, true, 4, 4⟩ : GraphEdgesBuilder).occupancy_limit ∧
    [GraphEdges.mk [0, 0, 1, 2] [1, 2, 0, 0] none] =
      transpose_cat [GraphEdges.mk [0, 0] [1, 2] none] [GraphEdges.mk [1, 2] [0, 0] none] ∧
    (GraphEdges.mk [0, 0] [1, 2] none).senders.length =
      (⟨10, 2, false, 3, 3⟩ : GraphEdgesBuilder).occupancy_limit ∧
    (GraphEdges.mk [1, 2] [0, 0] none).senders.length =
      (⟨10, 2, false, 3, 3⟩ : GraphEdgesBuilder).occupancy_limit := by
  obtain ⟨b1, e1, e2, hc1, hc2, hes, hm1, hm2, hl1, hl2⟩ :=
    spec_shared_builder_spin_blocks.1 ⟨10, 2, true, 4, 4⟩ 1 3
      [[⟨0, 0, 0⟩, ⟨1, 0, 0⟩, ⟨2, 0, 0⟩, ⟨3, 0, 0⟩]] ⟨10, 6, true, 4, 4⟩
      [GraphEdges.mk [4, 4, 1, 1, 2, 2, 3, 3] [4, 4, 2, 3, 1, 3, 1, 2] none] (by decide)
  have h1c : GraphEdgesBuilder.call ⟨10, 2, true, 4, 4⟩ 1 1
      ([[⟨0, 0, 0⟩, ⟨1, 0, 0⟩, ⟨2, 0, 0⟩, ⟨3, 0, 0⟩]].map (fun r => r.take 1))
      ([[⟨0, 0, 0⟩, ⟨1, 0, 0⟩, ⟨2, 0, 0⟩, ⟨3, 0, 0⟩]].map (fun r => r.take 1)) 0 0 =
      some (⟨10, 2, true, 4, 4⟩, [GraphEdges.mk [4, 4] [4, 4] none]) := by decide
  rw [hc1] at h1c
  simp only [Option.some.injEq, Prod.mk.injEq] at h1c
  obtain ⟨hb1, he1⟩ := h1c
  subst hb1
  subst he1
  have h2c : GraphEdgesBuilder.call ⟨10, 2, true, 4, 4⟩ 3 3
      ([[⟨0, 0, 0⟩, ⟨1, 0, 0⟩, ⟨2, 0, 0⟩, ⟨3, 0, 0⟩]].map (fun r => r.drop 1))
      ([[⟨0, 0, 0⟩, ⟨1, 0, 0⟩, ⟨2, 0, 0⟩, ⟨3, 0, 0⟩]].map (fun r => r.drop 1))
      ((1 : ℕ) : ℤ) ((1 : ℕ) : ℤ) =
      some (⟨10, 6, true, 4, 4⟩, [GraphEdges.mk [1, 1, 2, 2, 3, 3] [2, 3, 1, 3, 1, 2] none]) := by
    decide
  rw [hc2] at h2c
  simp only [Option.some.injEq, Prod.mk.injEq] at h2c
  obtain ⟨-, he2⟩ := h2c
  subst he2
  obtain ⟨b1a, e1a, e2a, ha1, ha2, hesa, -, -, hla1, hla2⟩ :=
    spec_shared_builder_spin_blocks.2.1 ⟨10, 2, false, 3, 3⟩ 1 2
      [[⟨0, 0, 0⟩, ⟨1, 0, 0⟩, ⟨2, 0, 0⟩]] ⟨10, 2, false, 3, 3⟩
      [GraphEdges.mk [0, 0, 1, 2] [1, 2, 0, 0] none] (by decide)
  have h1a : GraphEdgesBuilder.call ⟨10, 2, false, 3, 3⟩ 1 2
      ([[⟨0, 0, 0⟩, ⟨1, 0, 0⟩, ⟨2, 0, 0⟩]].map (fun r => r.take 1))
      ([[⟨0, 0, 0⟩, ⟨1, 0, 0⟩, ⟨2, 0, 0⟩]].map (fun r => r.drop 1)) 0 ((1 : ℕ) : ℤ) =
      some (⟨10, 2, false, 3, 3⟩, [GraphEdges.mk [0, 0] [1, 2] none]) := by decide
  rw [ha1] at h1a
  simp only [Option.some.injEq, Prod.mk.injEq] at h1a
  obtain ⟨hb1a, he1a⟩ := h1a
  subst hb1a
  subst he1a
  have h2a : GraphEdgesBuilder.call ⟨10, 2, false, 3, 3⟩ 2 1
      ([[⟨0, 0, 0⟩, ⟨1, 0, 0⟩, ⟨2, 0, 0⟩]].map (fun r => r.drop 1))
      ([[⟨0, 0, 0⟩, ⟨1, 0, 0⟩, ⟨2, 0, 0⟩]].map (fun r => r.take 1)) ((1 : ℕ) : ℤ) 0 =
      some (⟨10, 2, false, 3, 3⟩, [GraphEdges.mk [1, 2] [0, 0] none]) := by decide
  rw [ha2] at h2a
  simp only [Option.some.injEq, Prod.mk.injEq] at h2a
  obtain ⟨-, he2a⟩ := h2a
  subst he2a
  exact ⟨hm1, hm2, hes, hl1 _ (by simp), hl2 _ (by simp),
    hesa, hla1 _ (by simp), hla2 _ (by simp)⟩

end
